import Mathlib

/-!
A verification development for the language-learning chat assistant.

The JavaScript sources are embedded shallowly:

* `src/web/app/api/chat/route.js` — the response normalizer
  (`normalizeModelOutput`, `disabledProposal`, `disabledPoll`), the
  redaction helper (`redactActiveForModel`) and the request-preparation
  phase of the `POST` handler (everything that happens before the LLM
  collaborator is called).
* `src/web/app/page.js` — the objective grader (`normalizeText`,
  `gradeObjective`), the exercise constructors (`makeActiveFromProposal`,
  `defaultAttemptForActive`, `placementFreeResponseProposal`), the level
  inference (`inferApproxLevel`) and the clear/post-clear flows of the
  conversation controller (`onClearActive`, `onSubmitObjective`,
  `sendText`, `triggerPostClear`).

JavaScript values that the code inspects only through a fixed set of
shapes are represented by structures; `undefined`/missing/non-object
values are represented by `Option`.  JavaScript numbers that the code
only ever compares with `=== 1` are represented by `Int`.  String
operations (`trim`, `toLowerCase`, `includes`) are given executable
char-list models so that concrete instances evaluate by `decide`.
-/

/-! ## String helpers (models of the JavaScript string operations) -/

/-- Model of JavaScript `String.prototype.toLowerCase` (ASCII range, which
is the range exercised by the CEFR codes and keywords in the source). -/
def jsToLower (s : String) : String := ⟨s.data.map Char.toLower⟩

/-- Model of JavaScript `String.prototype.trim` on a char list: drop
whitespace from both ends. -/
def trimChars (l : List Char) : List Char :=
  ((l.dropWhile Char.isWhitespace).reverse.dropWhile Char.isWhitespace).reverse

/-- Model of JavaScript `String.prototype.trim`. -/
def jsTrim (s : String) : String := ⟨trimChars s.data⟩

/-- Model of JavaScript `String.prototype.includes`: substring test. -/
def jsIncludes (hay needle : String) : Bool := decide (needle.data <:+: hay.data)

/-! ## Data model

Shapes of the structured JSON payloads exchanged with the model, as the
JavaScript reads them.  `enabled` is a JS number compared with `=== 1`;
optional / possibly-missing fields are `Option`. -/

structure Translation where
  text : String
deriving DecidableEq, Repr

structure Blank where
  id : String
  text_with_placeholder : String
  expected_answers : Option (List String)
deriving DecidableEq, Repr

structure FillInBlank where
  prompt : String
  blanks : List Blank
deriving DecidableEq, Repr

structure McOption where
  id : String
  text : String
deriving DecidableEq, Repr

structure MultipleChoice where
  prompt : String
  options : List McOption
  allow_multiple : Bool
  correct_option_ids : Option (List String)
deriving DecidableEq, Repr

structure FreeResponse where
  language : String
  prompt : String
  rubric : String
deriving DecidableEq, Repr

structure Proposal where
  enabled : Int
  proposal_id : Option String
  problem_type : Option String
  translation : Option Translation
  fill_in_blank : Option FillInBlank
  multiple_choice : Option MultipleChoice
  free_response : Option FreeResponse
deriving DecidableEq, Repr

structure Exercise where
  enabled : Int
  exercise_id : Option String
  problem_type : Option String
  translation : Option Translation
  fill_in_blank : Option FillInBlank
  multiple_choice : Option MultipleChoice
  free_response : Option FreeResponse
deriving DecidableEq, Repr

structure Poll where
  enabled : Int
  poll_id : Option String
  question : Option String
  options : Option (List McOption)
deriving DecidableEq, Repr

structure Flags where
  is_help : Bool
  is_post_clear : Bool
deriving DecidableEq, Repr

/-- The raw parsed model output as `normalizeModelOutput` receives it:
every field may be missing or of the wrong shape (`none`). -/
structure RawModelOutput where
  response : Option String
  flags : Option Flags
  proposal : Option Proposal
  poll : Option Poll
  clear_active : Option Int
deriving DecidableEq, Repr

/-- The normalized output: `proposal`, `poll` and `clear_active` are
guaranteed present after normalization; `response`/`flags` pass through. -/
structure NormalizedOutput where
  response : Option String
  flags : Option Flags
  proposal : Proposal
  poll : Poll
  clear_active : Int
deriving DecidableEq, Repr

/-! ## Model response normalizer (route.js lines 96–150) -/

/-- route.js `disabledProposal()`: the canonical disabled proposal. -/
def disabledProposal : Proposal :=
  ⟨0, none, none, none, none, none, none⟩

/-- route.js `disabledPoll()`: the canonical disabled poll. -/
def disabledPoll : Poll :=
  ⟨0, none, none, none⟩

/-- route.js `normalizeModelOutput(parsed, { effectiveMode })`.
`parsed = none` models a non-object `parsed` (replaced by `{}`, i.e. a
raw output with every field missing). -/
def normalizeModelOutput (parsed : Option RawModelOutput) (effectiveMode : String) :
    NormalizedOutput :=
  let o := parsed.getD ⟨none, none, none, none, none⟩
  let proposal :=
    match o.proposal with
    | some p => if p.enabled = 1 then p else disabledProposal
    | none => disabledProposal
  let poll :=
    match o.poll with
    | some q => if q.enabled = 1 then q else disabledPoll
    | none => disabledPoll
  let clear_active : Int := if o.clear_active = some 1 then 1 else 0
  if effectiveMode = "help" then
    ⟨o.response, o.flags, proposal, disabledPoll, clear_active⟩
  else if poll.enabled = 1 ∧ clear_active = 1 then
    ⟨o.response, o.flags, proposal, disabledPoll, clear_active⟩
  else
    let proposal2 := if poll.enabled = 1 ∧ proposal.enabled = 1 then disabledProposal else proposal
    let clear2 : Int := if poll.enabled = 1 then 0 else clear_active
    ⟨o.response, o.flags, proposal2, poll, clear2⟩

/-- C2: with poll enabled, proposal enabled and clear_active=1
simultaneously, in chat or post_clear mode, the normalizer disables the
poll, keeps the proposal exactly as given, and keeps clear_active = 1. -/
theorem c2_conflict_poll_clear_keeps_proposal
    (o : RawModelOutput) (pr : Proposal) (pl : Poll) (mode : String)
    (hpr : o.proposal = some pr) (hpre : pr.enabled = 1)
    (hpl : o.poll = some pl) (hple : pl.enabled = 1)
    (hca : o.clear_active = some 1)
    (hmode : mode = "chat" ∨ mode = "post_clear") :
    (normalizeModelOutput (some o) mode).poll = disabledPoll ∧
      (normalizeModelOutput (some o) mode).proposal = pr ∧
      (normalizeModelOutput (some o) mode).clear_active = 1 := by
  have hmode' : mode ≠ "help" := by
    rcases hmode with h | h <;> subst h <;> decide
  simp [normalizeModelOutput, hpr, hpl, hca, hpre, hple, hmode']

/-- Witness for C2 at a concrete raw output. -/
theorem c2_conflict_poll_clear_keeps_proposal_witness :
    (normalizeModelOutput
        (some ⟨some "ok", none,
          some ⟨1, some "p1", some "translation", some ⟨"hola"⟩, none, none, none⟩,
          some ⟨1, some "q1", some "which?", some [⟨"a", "A"⟩]⟩,
          some 1⟩) "chat").poll = disabledPoll ∧
      (normalizeModelOutput
        (some ⟨some "ok", none,
          some ⟨1, some "p1", some "translation", some ⟨"hola"⟩, none, none, none⟩,
          some ⟨1, some "q1", some "which?", some [⟨"a", "A"⟩]⟩,
          some 1⟩) "chat").proposal =
        ⟨1, some "p1", some "translation", some ⟨"hola"⟩, none, none, none⟩ ∧
      (normalizeModelOutput
        (some ⟨some "ok", none,
          some ⟨1, some "p1", some "translation", some ⟨"hola"⟩, none, none, none⟩,
          some ⟨1, some "q1", some "which?", some [⟨"a", "A"⟩]⟩,
          some 1⟩) "chat").clear_active = 1 :=
  c2_conflict_poll_clear_keeps_proposal _ _ _ _ rfl rfl rfl rfl rfl (Or.inl rfl)

/-- C7: in help mode the normalized output always has the poll disabled
(enabled = 0 and every poll payload field null), whatever the raw model
output was. -/
theorem c7_help_mode_poll_always_disabled (parsed : Option RawModelOutput) :
    (normalizeModelOutput parsed "help").poll.enabled = 0 ∧
      (normalizeModelOutput parsed "help").poll.poll_id = none ∧
      (normalizeModelOutput parsed "help").poll.question = none ∧
      (normalizeModelOutput parsed "help").poll.options = none := by
  simp [normalizeModelOutput, disabledPoll]

/-! ## Objective grader (page.js lines 315–370) -/

/-- The user's in-progress answer (page.js `attempt`): a string for
translation/free_response, a blank-id→string map for fill_in_blank, a
list of option ids for multiple_choice. -/
inductive Attempt where
  | str (s : String)
  | blanks (entries : List (String × String))
  | choices (ids : List String)
deriving DecidableEq, Repr

/-- page.js `normalizeText(s)`: trim whitespace, then lower-case. -/
def normalizeText (s : String) : String := jsToLower (jsTrim s)

/-- JS `nextAttempt?.[b.id] ?? ""`: the attempt value for a blank id,
empty string when the attempt is missing, not a map, or lacks the key. -/
def attemptBlankValue (attempt : Option Attempt) (id : String) : String :=
  match attempt with
  | some (.blanks entries) => (entries.lookup id).getD ""
  | _ => ""

/-- JS `Array.isArray(nextAttempt) ? nextAttempt.map(String) : []`. -/
def attemptSelectedIds (attempt : Option Attempt) : List String :=
  match attempt with
  | some (.choices ids) => ids
  | _ => []

/-- The grading result (page.js `grade`): `results` is present for
fill_in_blank only, listing `(blank id, correct)` pairs. -/
structure Grade where
  kind : String
  allCorrect : Bool
  results : Option (List (String × Bool))
deriving DecidableEq, Repr

/-- JS `[...new Set(xs)]`: de-duplication keeping first occurrences. -/
def jsDedupAux (seen : List String) : List String → List String
  | [] => []
  | x :: xs => if x ∈ seen then jsDedupAux seen xs else x :: jsDedupAux (x :: seen) xs

/-- JS `[...new Set(xs)]`. -/
def jsDedup (xs : List String) : List String := jsDedupAux [] xs

/-- Code-unit lexicographic comparison, as JS string comparison does. -/
def charListLe : List Char → List Char → Bool
  | [], _ => true
  | _ :: _, [] => false
  | a :: as, b :: bs =>
    if a.toNat < b.toNat then true
    else if b.toNat < a.toNat then false
    else charListLe as bs

/-- Insertion step for the model of JS `Array.prototype.sort()`. -/
def insertSorted (x : String) : List String → List String
  | [] => [x]
  | y :: ys => if charListLe x.data y.data then x :: y :: ys else y :: insertSorted x ys

/-- JS `Array.prototype.sort()` on an array of strings: sorts
lexicographically (insertion sort; only the resulting order matters). -/
def sortStrings (l : List String) : List String := l.foldr insertSorted []

/-- The `setEq` closure inside `gradeObjective`: equal length and every
element of `b` present in `a`. -/
def setEq (a b : List String) : Bool :=
  (a.length == b.length) && b.all (fun x => a.contains x)

/-- Per-blank correctness, as the claim states it: the attempt string
for the blank, normalized, equals at least one accepted-answer string
normalized the same way. -/
def BlankCorrect (attempt : Option Attempt) (b : Blank) : Prop :=
  ∃ e ∈ b.expected_answers.getD [],
    normalizeText (attemptBlankValue attempt b.id) = normalizeText e

instance (attempt : Option Attempt) (b : Blank) : Decidable (BlankCorrect attempt b) := by
  unfold BlankCorrect; infer_instance

/-- page.js `gradeObjective(nextActive, nextAttempt)`.  Returns `none`
unless the exercise is enabled, has a (non-empty, hence truthy)
problem_type, and is one of the two objectively gradable kinds with its
payload present. -/
def gradeObjective (nextActive : Exercise) (nextAttempt : Option Attempt) : Option Grade :=
  if nextActive.enabled ≠ 1 then none
  else
    match nextActive.problem_type with
    | none => none
    | some pt =>
      if pt = "" then none
      else if pt = "fill_in_blank" then
        match nextActive.fill_in_blank with
        | some fib =>
          let results := fib.blanks.map (fun b =>
            let userVal := normalizeText (attemptBlankValue nextAttempt b.id)
            let expected := b.expected_answers.getD []
            (b.id, (expected.map normalizeText).contains userVal))
          some ⟨"fill_in_blank", results.all (fun r => r.2), some results⟩
        | none => none
      else if pt = "multiple_choice" then
        match nextActive.multiple_choice with
        | some mc =>
          let selected := attemptSelectedIds nextAttempt
          let correct := mc.correct_option_ids.getD []
          some ⟨"multiple_choice",
            setEq (sortStrings (jsDedup selected)) (sortStrings (jsDedup correct)), none⟩
        | none => none
      else none

theorem mem_jsDedupAux (seen l : List String) (x : String) :
    x ∈ jsDedupAux seen l ↔ x ∈ l ∧ x ∉ seen := by
  induction l generalizing seen with
  | nil => simp [jsDedupAux]
  | cons y ys ih =>
    by_cases hy : y ∈ seen
    · simp only [jsDedupAux, if_pos hy, ih, List.mem_cons]
      constructor
      · rintro ⟨h1, h2⟩; exact ⟨Or.inr h1, h2⟩
      · rintro ⟨h1 | h1, h2⟩
        · exact absurd (h1 ▸ hy) h2
        · exact ⟨h1, h2⟩
    · simp only [jsDedupAux, if_neg hy, List.mem_cons, ih, List.mem_cons]
      constructor
      · rintro (h | ⟨h1, h2⟩)
        · exact ⟨Or.inl h, h ▸ hy⟩
        · exact ⟨Or.inr h1, fun hc => h2 (Or.inr hc)⟩
      · rintro ⟨h1 | h1, h2⟩
        · exact Or.inl h1
        · by_cases hxy : x = y
          · exact Or.inl hxy
          · exact Or.inr ⟨h1, fun hc => (hc.elim hxy h2 : False)⟩

theorem nodup_jsDedupAux (seen l : List String) : (jsDedupAux seen l).Nodup := by
  induction l generalizing seen with
  | nil => simp [jsDedupAux]
  | cons y ys ih =>
    by_cases hy : y ∈ seen
    · simpa [jsDedupAux, if_pos hy] using ih seen
    · simp only [jsDedupAux, if_neg hy]
      refine List.nodup_cons.mpr ⟨fun hc => ?_, ih (y :: seen)⟩
      exact ((mem_jsDedupAux _ _ _).mp hc).2 (List.mem_cons_self _ _)

theorem mem_jsDedup (l : List String) (x : String) : x ∈ jsDedup l ↔ x ∈ l := by
  simp [jsDedup, mem_jsDedupAux]

theorem nodup_jsDedup (l : List String) : (jsDedup l).Nodup := nodup_jsDedupAux [] l

theorem insertSorted_perm (x : String) (l : List String) :
    (insertSorted x l).Perm (x :: l) := by
  induction l with
  | nil => exact List.Perm.refl _
  | cons y ys ih =>
    unfold insertSorted
    by_cases h : charListLe x.data y.data = true
    · rw [if_pos h]
    · rw [if_neg h]
      exact (ih.cons y).trans (List.Perm.swap x y ys)

theorem sortStrings_perm (l : List String) : (sortStrings l).Perm l := by
  induction l with
  | nil => exact List.Perm.refl _
  | cons x xs ih => exact (insertSorted_perm x (sortStrings xs)).trans (ih.cons x)

theorem mem_sortStrings (l : List String) (x : String) : x ∈ sortStrings l ↔ x ∈ l :=
  (sortStrings_perm l).mem_iff

/-- `setEq` on two duplicate-free lists holds exactly when they have the
same elements. -/
theorem setEq_true_iff (a b : List String) (ha : a.Nodup) (hb : b.Nodup) :
    setEq a b = true ↔ ∀ x, x ∈ a ↔ x ∈ b := by
  simp only [setEq, Bool.and_eq_true, beq_iff_eq, List.all_eq_true, List.elem_iff]
  constructor
  · rintro ⟨hlen, hsub⟩ x
    have hsub' : b.toFinset ⊆ a.toFinset := by
      intro y hy
      exact List.mem_toFinset.mpr (hsub y (List.mem_toFinset.mp hy))
    have hcard : a.toFinset.card ≤ b.toFinset.card := by
      rw [List.toFinset_card_of_nodup ha, List.toFinset_card_of_nodup hb, hlen]
    have heq : b.toFinset = a.toFinset := Finset.eq_of_subset_of_card_le hsub' hcard
    constructor
    · intro hx
      have : x ∈ a.toFinset := List.mem_toFinset.mpr hx
      rw [← heq] at this
      exact List.mem_toFinset.mp this
    · intro hx
      have : x ∈ b.toFinset := List.mem_toFinset.mpr hx
      rw [heq] at this
      exact List.mem_toFinset.mp this
  · intro h
    constructor
    · have : a.toFinset = b.toFinset := by
        ext y; simp only [List.mem_toFinset]; exact h y
      calc a.length = a.toFinset.card := (List.toFinset_card_of_nodup ha).symm
        _ = b.toFinset.card := by rw [this]
        _ = b.length := List.toFinset_card_of_nodup hb
    · intro x hx
      exact (h x).mpr hx

/-- The multiple-choice verdict compares the de-duplicated sorted lists;
it holds exactly when the selected ids and the correct ids are equal as
sets. -/
theorem mcVerdict_iff (selected correct : List String) :
    setEq (sortStrings (jsDedup selected)) (sortStrings (jsDedup correct)) = true ↔
      ∀ x, x ∈ selected ↔ x ∈ correct := by
  rw [setEq_true_iff _ _
      (((sortStrings_perm _).nodup_iff).mpr (nodup_jsDedup _))
      (((sortStrings_perm _).nodup_iff).mpr (nodup_jsDedup _))]
  constructor
  · intro h x
    have := h x
    rwa [mem_sortStrings, mem_sortStrings, mem_jsDedup, mem_jsDedup] at this
  · intro h x
    rw [mem_sortStrings, mem_sortStrings, mem_jsDedup, mem_jsDedup]
    exact h x

/-- The boolean computed for one blank equals the decidable spec of
per-blank correctness. -/
theorem blankResult_eq (att : Option Attempt) (b : Blank) :
    ((b.expected_answers.getD []).map normalizeText).contains
      (normalizeText (attemptBlankValue att b.id)) = decide (BlankCorrect att b) := by
  by_cases h : BlankCorrect att b
  · obtain ⟨e, hmem, heq⟩ := h
    have hm : normalizeText (attemptBlankValue att b.id) ∈
        (b.expected_answers.getD []).map normalizeText :=
      List.mem_map.mpr ⟨e, hmem, heq.symm⟩
    exact (List.elem_iff.mpr hm).trans (decide_eq_true (⟨e, hmem, heq⟩ : BlankCorrect att b)).symm
  · have hm : normalizeText (attemptBlankValue att b.id) ∉
        (b.expected_answers.getD []).map normalizeText := by
      intro hc
      obtain ⟨e, hmem, heq⟩ := List.mem_map.mp hc
      exact h ⟨e, hmem, heq.symm⟩
    have h1 : ((b.expected_answers.getD []).map normalizeText).contains
        (normalizeText (attemptBlankValue att b.id)) = false :=
      Bool.eq_false_iff.mpr (fun hc => hm (List.elem_iff.mp hc))
    exact h1.trans (decide_eq_false h).symm

/-- `gradeObjective` computed on an enabled fill_in_blank exercise. -/
theorem gradeObjective_fib_eq (eid : Option String) (tr : Option Translation)
    (mco : Option MultipleChoice) (fro : Option FreeResponse)
    (fib : FillInBlank) (att : Option Attempt) :
    gradeObjective ⟨1, eid, some "fill_in_blank", tr, some fib, mco, fro⟩ att =
      some ⟨"fill_in_blank",
        (fib.blanks.map (fun b =>
          (b.id, ((b.expected_answers.getD []).map normalizeText).contains
            (normalizeText (attemptBlankValue att b.id))))).all (fun r => r.2),
        some (fib.blanks.map (fun b =>
          (b.id, ((b.expected_answers.getD []).map normalizeText).contains
            (normalizeText (attemptBlankValue att b.id)))))⟩ := rfl

/-- C5: for a fill_in_blank exercise, the grade marks a blank correct
iff the trimmed, lower-cased attempt string for that blank equals at
least one accepted-answer string normalized the same way, and
`allCorrect` holds iff every blank is correct. -/
theorem c5_fill_in_blank_grading
    (a : Exercise) (fib : FillInBlank) (att : Option Attempt) (g : Grade)
    (he : a.enabled = 1) (hpt : a.problem_type = some "fill_in_blank")
    (hf : a.fill_in_blank = some fib)
    (hg : gradeObjective a att = some g) :
    g.kind = "fill_in_blank" ∧
      g.results = some (fib.blanks.map (fun b => (b.id, decide (BlankCorrect att b)))) ∧
      (g.allCorrect = true ↔ ∀ b ∈ fib.blanks, BlankCorrect att b) := by
  have hfun : (fun b : Blank =>
      (b.id, ((b.expected_answers.getD []).map normalizeText).contains
        (normalizeText (attemptBlankValue att b.id)))) =
      fun b : Blank => (b.id, decide (BlankCorrect att b)) :=
    funext fun b => by rw [blankResult_eq]
  obtain ⟨en, eid, pt, tro, fibo, mco, fro⟩ := a
  simp only at he hpt hf
  subst he hpt hf
  rw [gradeObjective_fib_eq, hfun] at hg
  injection hg with hg
  subst hg
  refine ⟨rfl, rfl, ?_⟩
  simp [List.all_eq_true, List.mem_map]

def c5Fib : FillInBlank := ⟨"Greet your friend", [⟨"b1", "____ amigo", some ["hola"]⟩]⟩

def exHola : Exercise := ⟨1, some "e1", some "fill_in_blank", none, some c5Fib, none, none⟩

def attHola : Option Attempt := some (.blanks [("b1", " Hola ")])

def c5Grade : Grade := ⟨"fill_in_blank", true, some [("b1", true)]⟩

/-- Witness for C5: attempt `" Hola "` against accepted answer `"hola"`
grades fully correct. -/
theorem c5_fill_in_blank_grading_witness :
    gradeObjective exHola attHola = some c5Grade ∧
      (c5Grade.allCorrect = true ↔ ∀ b ∈ c5Fib.blanks, BlankCorrect attHola b) :=
  ⟨by decide, (c5_fill_in_blank_grading exHola c5Fib attHola c5Grade rfl rfl rfl (by decide)).2.2⟩

/-- C6: multiple-choice grading is invariant under set-equal selections,
and the verdict holds exactly when the selected ids and the correct ids
are equal as sets (order- and duplicate-independent, no partial
credit). -/
theorem c6_multiple_choice_set_equality
    (a : Exercise) (mc : MultipleChoice)
    (he : a.enabled = 1) (hpt : a.problem_type = some "multiple_choice")
    (hm : a.multiple_choice = some mc) :
    (∀ sel1 sel2 : List String, (∀ x, x ∈ sel1 ↔ x ∈ sel2) →
        gradeObjective a (some (.choices sel1)) = gradeObjective a (some (.choices sel2))) ∧
      (∀ (att : Option Attempt) (g : Grade), gradeObjective a att = some g →
        (g.allCorrect = true ↔
          ∀ x, x ∈ attemptSelectedIds att ↔ x ∈ mc.correct_option_ids.getD [])) := by
  have hcompute : ∀ att : Option Attempt, gradeObjective a att =
      some ⟨"multiple_choice",
        setEq (sortStrings (jsDedup (attemptSelectedIds att)))
          (sortStrings (jsDedup (mc.correct_option_ids.getD []))), none⟩ := by
    obtain ⟨en, eid, pt, tro, fibo, mco, fro⟩ := a
    simp only at he hpt hm
    subst he hpt hm
    intro att
    rfl
  have hboolext : ∀ (b1 b2 : Bool) (P : Prop), (b1 = true ↔ P) → (b2 = true ↔ P) → b1 = b2 := by
    intro b1 b2 P h1 h2
    cases b1 <;> cases b2 <;> simp_all
  constructor
  · intro sel1 sel2 hsets
    rw [hcompute, hcompute]
    have hv : setEq (sortStrings (jsDedup (attemptSelectedIds (some (.choices sel1)))))
          (sortStrings (jsDedup (mc.correct_option_ids.getD []))) =
        setEq (sortStrings (jsDedup (attemptSelectedIds (some (.choices sel2)))))
          (sortStrings (jsDedup (mc.correct_option_ids.getD []))) := by
      refine hboolext _ _
        (∀ x, x ∈ sel2 ↔ x ∈ mc.correct_option_ids.getD []) ?_ ?_
      · rw [mcVerdict_iff]
        simp only [attemptSelectedIds]
        constructor
        · intro h x
          exact ((hsets x).symm).trans (h x)
        · intro h x
          exact (hsets x).trans (h x)
      · rw [mcVerdict_iff]
        exact Iff.rfl
    rw [hv]
  · intro att g hg
    rw [hcompute] at hg
    injection hg with hg
    subst hg
    exact mcVerdict_iff _ _

def c6Mc : MultipleChoice := ⟨"Pick the greetings", [⟨"a", "A"⟩, ⟨"b", "B"⟩], true, some ["a", "b"]⟩

def exMc : Exercise := ⟨1, some "e2", some "multiple_choice", none, none, some c6Mc, none⟩

/-- Witness for C6: selections `["b","a","a"]` and `["a","b"]` grade
identically, and grade correct against `correct_option_ids = ["a","b"]`. -/
theorem c6_multiple_choice_set_equality_witness :
    gradeObjective exMc (some (.choices ["b", "a", "a"])) =
        gradeObjective exMc (some (.choices ["a", "b"])) ∧
      gradeObjective exMc (some (.choices ["b", "a", "a"])) =
        some ⟨"multiple_choice", true, none⟩ :=
  ⟨(c6_multiple_choice_set_equality exMc c6Mc rfl rfl rfl).1 ["b", "a", "a"] ["a", "b"]
      (by intro x; constructor <;> intro h <;> simp_all <;> tauto),
    by decide⟩

/-! ## Level inference (page.js lines 169–179)

`inferApproxLevel` lower-cases the text, looks for the first whole-word
CEFR code with the regex `\b(a1|a2|b1|b2|c1|c2)\b`, and otherwise falls
back to keyword containment.  The regex is modelled by a left-to-right
scanner over the char list; `\b` is a transition between a `\w` char
(`[A-Za-z0-9_]`) and a non-`\w` char (or the string edge). -/

/-- JS `\w`: `[A-Za-z0-9_]`. -/
def isWordCharJs (c : Char) : Bool :=
  (97 ≤ c.toNat && c.toNat ≤ 122) || (65 ≤ c.toNat && c.toNat ≤ 90) ||
    (48 ≤ c.toNat && c.toNat ≤ 57) || c.toNat == 95

/-- Whether two adjacent chars form one of the (lower-cased) CEFR codes
`a1|a2|b1|b2|c1|c2`. -/
def isCefrPair (c1 c2 : Char) : Bool :=
  (c1 == 'a' || c1 == 'b' || c1 == 'c') && (c2 == '1' || c2 == '2')

/-- `\b` on the left of a match: string start or a non-word char before. -/
def boundaryBefore : Option Char → Bool
  | none => true
  | some d => !(isWordCharJs d)

/-- `\b` on the right of a match: string end or a non-word char after. -/
def boundaryAfterOk : List Char → Bool
  | [] => true
  | d :: _ => !(isWordCharJs d)

/-- The regex scan `t.match(/\b(a1|a2|b1|b2|c1|c2)\b/i)` on the
lower-cased text: left-to-right search for the first whole-word code.
`prev` is the char just before the current position (`none` at start). -/
def findCefr (prev : Option Char) : List Char → Option (Char × Char)
  | [] => none
  | c :: rest =>
    match rest with
    | [] => none
    | c2 :: rest2 =>
      if isCefrPair c c2 && boundaryBefore prev && boundaryAfterOk rest2 then some (c, c2)
      else findCefr (some c) rest

/-- page.js `inferApproxLevel(levelText)`. -/
def inferApproxLevel (levelText : String) : String :=
  match findCefr none (jsToLower levelText).data with
  | some (c1, c2) => ⟨[c1.toUpper, c2.toUpper]⟩
  | none =>
    if jsIncludes (jsToLower levelText) "beginner" then "A1"
    else if jsIncludes (jsToLower levelText) "intermediate" then "B1"
    else if jsIncludes (jsToLower levelText) "advanced" then "C1"
    else "B1"

/-- The char just before the current position of a scan that consumed
`pre` after starting with preceding char `prev`. -/
def lastCtx (prev : Option Char) : List Char → Option Char
  | [] => prev
  | c :: rest => lastCtx (some c) rest

/-- Spec-level statement (from the claim's words): the two chars
`c1 c2` occur as a whole-word CEFR code in `l`, with `pre`/`post` the
surrounding text. -/
def WholeWordCefrAt (l pre : List Char) (c1 c2 : Char) (post : List Char) : Prop :=
  l = pre ++ c1 :: c2 :: post ∧
    isCefrPair c1 c2 = true ∧
    (∀ d ∈ pre.getLast?, isWordCharJs d = false) ∧
    (∀ d ∈ post.head?, isWordCharJs d = false)

/-- Spec-level statement: `c1 c2` is the first (leftmost) whole-word
CEFR code of `l`. -/
def FirstWholeWordCefr (l : List Char) (c1 c2 : Char) : Prop :=
  ∃ pre post, WholeWordCefrAt l pre c1 c2 post ∧
    ∀ pre2 d1 d2 post2, WholeWordCefrAt l pre2 d1 d2 post2 → pre.length ≤ pre2.length

theorem lastCtx_eq_getLast_or (prev : Option Char) (pre : List Char) :
    lastCtx prev pre = pre.getLast?.or prev := by
  induction pre generalizing prev with
  | nil => simp [lastCtx]
  | cons c rest ih =>
    rw [lastCtx, ih]
    cases rest with
    | nil => simp
    | cons e rest2 =>
      rw [List.getLast?_cons_cons]
      obtain ⟨d, hd⟩ := Option.isSome_iff_exists.mp
        (List.getLast?_isSome.mpr (by simp) : (e :: rest2).getLast?.isSome)
      rw [hd]
      rfl

/-- The scanner finds exactly the leftmost whole-word CEFR code, stated
relative to the preceding-char context `prev`. -/
theorem findCefr_eq_some_iff (l : List Char) : ∀ (prev : Option Char) (c1 c2 : Char),
    findCefr prev l = some (c1, c2) ↔
      ∃ pre post, l = pre ++ c1 :: c2 :: post ∧
        isCefrPair c1 c2 = true ∧
        boundaryBefore (lastCtx prev pre) = true ∧
        boundaryAfterOk post = true ∧
        ∀ pre2 d1 d2 post2, l = pre2 ++ d1 :: d2 :: post2 →
          isCefrPair d1 d2 = true → boundaryBefore (lastCtx prev pre2) = true →
          boundaryAfterOk post2 = true → pre.length ≤ pre2.length := by
  induction l with
  | nil =>
    intro prev c1 c2
    constructor
    · intro h
      simp [findCefr] at h
    · rintro ⟨pre, post, hl, -⟩
      exact absurd hl (by simp)
  | cons c rest ih =>
    intro prev c1 c2
    cases rest with
    | nil =>
      constructor
      · intro h
        simp [findCefr] at h
      · rintro ⟨pre, post, hl, -⟩
        have hlen := congrArg List.length hl
        simp [List.length_append] at hlen
        omega
    | cons d rest2 =>
      by_cases hcond : (isCefrPair c d && boundaryBefore prev && boundaryAfterOk rest2) = true
      · have hstep : findCefr prev (c :: d :: rest2) = some (c, d) := by
          simp [findCefr, hcond]
        obtain ⟨⟨hpair, hbb⟩, hba⟩ :
            (isCefrPair c d = true ∧ boundaryBefore prev = true) ∧ boundaryAfterOk rest2 = true := by
          simpa [Bool.and_eq_true] using hcond
        rw [hstep]
        constructor
        · intro h
          have hinj := Option.some.inj h
          have h1 : c = c1 := congrArg Prod.fst hinj
          have h2 : d = c2 := congrArg Prod.snd hinj
          subst h1
          subst h2
          exact ⟨[], rest2, rfl, hpair, hbb, hba,
            fun pre2 d1 d2 post2 _ _ _ _ => Nat.zero_le _⟩
        · rintro ⟨pre, post, hl, hpair', hbb', hba', hmin⟩
          have h0 : pre.length ≤ 0 := hmin [] c d rest2 rfl hpair hbb hba
          have hpre : pre = [] := List.eq_nil_of_length_eq_zero (Nat.le_zero.mp h0)
          subst hpre
          simp only [List.nil_append, List.cons.injEq] at hl
          obtain ⟨h1, h2, -⟩ := hl
          rw [h1, h2]
      · have hstep : findCefr prev (c :: d :: rest2) = findCefr (some c) (d :: rest2) := by
          simp [findCefr, hcond]
        rw [hstep, ih (some c) c1 c2]
        constructor
        · rintro ⟨pre, post, hl, hpair, hbb, hba, hmin⟩
          refine ⟨c :: pre, post, by rw [List.cons_append, ← hl], hpair, hbb, hba, ?_⟩
          intro pre2 d1 d2 post2 hl2 hp2 hb2 ha2
          cases pre2 with
          | nil =>
            exfalso
            simp only [List.nil_append, List.cons.injEq] at hl2
            obtain ⟨h1, h2, h3⟩ := hl2
            apply hcond
            rw [Bool.and_eq_true, Bool.and_eq_true]
            refine ⟨⟨?_, ?_⟩, ?_⟩
            · rw [h1, h2]; exact hp2
            · exact hb2
            · rw [h3]; exact ha2
          | cons e pre2' =>
            rw [List.cons_append, List.cons.injEq] at hl2
            obtain ⟨h1, h2⟩ := hl2
            subst h1
            have hx := hmin pre2' d1 d2 post2 h2 hp2 hb2 ha2
            simpa [List.length_cons] using Nat.succ_le_succ hx
        · rintro ⟨pre, post, hl, hpair, hbb, hba, hmin⟩
          cases pre with
          | nil =>
            exfalso
            simp only [List.nil_append, List.cons.injEq] at hl
            obtain ⟨h1, h2, h3⟩ := hl
            apply hcond
            rw [Bool.and_eq_true, Bool.and_eq_true]
            refine ⟨⟨?_, ?_⟩, ?_⟩
            · rw [h1, h2]; exact hpair
            · exact hbb
            · rw [← h3] at hba; exact hba
          | cons e pre' =>
            rw [List.cons_append, List.cons.injEq] at hl
            obtain ⟨h1, h2⟩ := hl
            subst h1
            refine ⟨pre', post, h2, hpair, hbb, hba, ?_⟩
            intro pre2 d1 d2 post2 hl2 hp2 hb2 ha2
            have hx := hmin (c :: pre2) d1 d2 post2 (by rw [List.cons_append, ← hl2]) hp2 hb2 ha2
            simpa [List.length_cons] using hx

theorem boundaryBefore_lastCtx_none (pre : List Char) :
    boundaryBefore (lastCtx none pre) = true ↔ ∀ d ∈ pre.getLast?, isWordCharJs d = false := by
  rw [lastCtx_eq_getLast_or, Option.or_none]
  cases h : pre.getLast? with
  | none => simp [boundaryBefore]
  | some d => simp [boundaryBefore]

theorem boundaryAfterOk_head_iff (post : List Char) :
    boundaryAfterOk post = true ↔ ∀ d ∈ post.head?, isWordCharJs d = false := by
  cases post with
  | nil => simp [boundaryAfterOk]
  | cons d t => simp [boundaryAfterOk]

theorem findCefr_eq_none_of (l : List Char)
    (h : ∀ pre c1 c2 post, ¬ WholeWordCefrAt l pre c1 c2 post) :
    findCefr none l = none := by
  cases hf : findCefr none l with
  | none => rfl
  | some p =>
    obtain ⟨c1, c2⟩ := p
    obtain ⟨pre, post, hl, hpair, hbb, hba, -⟩ := (findCefr_eq_some_iff l none c1 c2).mp hf
    exact (h pre c1 c2 post ⟨hl, hpair, (boundaryBefore_lastCtx_none pre).mp hbb,
      (boundaryAfterOk_head_iff post).mp hba⟩).elim

/-- C9: the inferred coarse level is the first whole-word CEFR code of
the lower-cased text, uppercased; when no such code occurs the keyword
fallbacks apply in order beginner→A1, intermediate→B1, advanced→C1,
default B1. -/
theorem c9_infer_approx_level (t : String) :
    (∀ c1 c2 : Char, FirstWholeWordCefr (jsToLower t).data c1 c2 →
        inferApproxLevel t = ⟨[c1.toUpper, c2.toUpper]⟩) ∧
      ((∀ pre c1 c2 post, ¬ WholeWordCefrAt (jsToLower t).data pre c1 c2 post) →
        inferApproxLevel t =
          if jsIncludes (jsToLower t) "beginner" then "A1"
          else if jsIncludes (jsToLower t) "intermediate" then "B1"
          else if jsIncludes (jsToLower t) "advanced" then "C1"
          else "B1") := by
  constructor
  · rintro c1 c2 ⟨pre, post, ⟨hl, hpair, hbl, hbr⟩, hmin⟩
    have hf : findCefr none (jsToLower t).data = some (c1, c2) := by
      rw [findCefr_eq_some_iff]
      refine ⟨pre, post, hl, hpair, (boundaryBefore_lastCtx_none pre).mpr hbl,
        (boundaryAfterOk_head_iff post).mpr hbr, ?_⟩
      intro pre2 d1 d2 post2 hl2 hp2 hb2 ha2
      exact hmin pre2 d1 d2 post2 ⟨hl2, hp2, (boundaryBefore_lastCtx_none pre2).mp hb2,
        (boundaryAfterOk_head_iff post2).mp ha2⟩
    simp only [inferApproxLevel, hf]
  · intro h
    have hf : findCefr none (jsToLower t).data = none := findCefr_eq_none_of _ h
    simp only [inferApproxLevel, hf]

/-- Witness for C9: `"b2"` is recognized as a whole-word CEFR code and
yields `"B2"`; `"intermediate"` has no CEFR code and falls back to
`"B1"`. -/
theorem c9_infer_approx_level_witness :
    inferApproxLevel "b2" = "B2" ∧ inferApproxLevel "intermediate" = "B1" := by
  constructor
  · have h := (c9_infer_approx_level "b2").1 'b' '2'
      ⟨[], [], ⟨rfl, by decide, by simp, by simp⟩, fun _ _ _ _ _ => Nat.zero_le _⟩
    exact h.trans (by decide)
  · have hnone : ∀ pre c1 c2 post,
        ¬ WholeWordCefrAt (jsToLower "intermediate").data pre c1 c2 post := by
      rintro pre c1 c2 post ⟨hl, hpair, -, -⟩
      have hc2 : c2 = '1' ∨ c2 = '2' := by
        unfold isCefrPair at hpair
        simp only [Bool.and_eq_true, Bool.or_eq_true, beq_iff_eq] at hpair
        exact hpair.2
      have hmem : c2 ∈ (jsToLower "intermediate").data := by
        rw [hl]; simp
      rcases hc2 with h | h <;> rw [h] at hmem <;> revert hmem <;> decide
    have h := (c9_infer_approx_level "intermediate").2 hnone
    rw [h]
    decide

/-! ## JSON serialization (model of `JSON.stringify` on the shapes above)

The route embeds the redacted active exercise, the attempt and the help
context into the user content as JSON text.  `JSON.stringify` is
modelled character by character on the fixed shapes the code serializes:
object/array punctuation, quoted keys and strings with `"`/`\`
escaping, and decimal numbers.  An `Option` payload field that is `none`
renders as `null`; a field removed by redaction (`delete`) is omitted
from the object entirely. -/

/-- The `"` character (JSON quote). -/
def quoteC : Char := '\x22'

/-- The `\` character (JSON escape). -/
def backslashC : Char := '\x5c'

/-- JSON string escaping of one char (the quote/backslash escapes that
`JSON.stringify` applies to the strings handled here). -/
def escChar (c : Char) : List Char :=
  if c = quoteC ∨ c = backslashC then [backslashC, c] else [c]

/-- JSON string escaping of a char list. -/
def escList (l : List Char) : List Char := (l.map escChar).flatten

/-- JSON string escaping of a string. -/
def escString (s : String) : List Char := escList s.data

/-- A JSON string literal: `"…"` with escaping. -/
def strChars (s : String) : List Char := quoteC :: (escString s ++ [quoteC])

/-- A `"key":value` member of a JSON object. -/
def keyValChars (k : String) (v : List Char) : List Char := strChars k ++ (':' :: v)

/-- Comma-joined serialized members. -/
def commaJoin : List (List Char) → List Char
  | [] => []
  | [x] => x
  | x :: y :: xs => x ++ (',' :: commaJoin (y :: xs))

/-- A JSON object from serialized members. -/
def objChars (fields : List (List Char)) : List Char :=
  '\x7b' :: (commaJoin fields ++ ['\x7d'])

/-- A JSON array from serialized items. -/
def arrChars (items : List (List Char)) : List Char :=
  '[' :: (commaJoin items ++ [']'])

/-- `null`. -/
def nullChars : List Char := ['n', 'u', 'l', 'l']

/-- `true`/`false`. -/
def boolChars (b : Bool) : List Char :=
  if b then ['t', 'r', 'u', 'e'] else ['f', 'a', 'l', 's', 'e']

/-- The decimal digit characters. -/
def digitChar (d : Nat) : Char :=
  if d = 0 then '0' else if d = 1 then '1' else if d = 2 then '2' else if d = 3 then '3'
  else if d = 4 then '4' else if d = 5 then '5' else if d = 6 then '6' else if d = 7 then '7'
  else if d = 8 then '8' else '9'

/-- Decimal digits of a natural number (`fuel`-driven so that it
computes by kernel reduction). -/
def natCharsAux : Nat → Nat → List Char
  | 0, _ => []
  | fuel + 1, n =>
    if n < 10 then [digitChar n]
    else natCharsAux fuel (n / 10) ++ [digitChar (n % 10)]

/-- Decimal digits of a natural number. -/
def natChars (n : Nat) : List Char := natCharsAux (n + 1) n

/-- A JSON number (integer case, which is all this code produces). -/
def intChars : Int → List Char
  | .ofNat n => natChars n
  | .negSucc m => '-' :: natChars (m + 1)

/-- A JSON array of strings. -/
def strArrChars (xs : List String) : List Char := arrChars (xs.map strChars)

/-- `null` or a serialized value. -/
def optChars {α : Type} (f : α → List Char) : Option α → List Char
  | some x => f x
  | none => nullChars

/-- `null` or a JSON string. -/
def optStrChars : Option String → List Char
  | some s => strChars s
  | none => nullChars

/-- A serialized blank.  A present `expected_answers` renders as a key;
`none` (the redacted state, after `delete blank.expected_answers`)
omits the key. -/
def blankChars (b : Blank) : List Char :=
  objChars ([keyValChars "id" (strChars b.id),
      keyValChars "text_with_placeholder" (strChars b.text_with_placeholder)] ++
    match b.expected_answers with
    | some es => [keyValChars "expected_answers" (strArrChars es)]
    | none => [])

/-- A serialized fill_in_blank payload. -/
def fibChars (f : FillInBlank) : List Char :=
  objChars [keyValChars "prompt" (strChars f.prompt),
    keyValChars "blanks" (arrChars (f.blanks.map blankChars))]

/-- A serialized multiple-choice option. -/
def mcOptionChars (o : McOption) : List Char :=
  objChars [keyValChars "id" (strChars o.id), keyValChars "text" (strChars o.text)]

/-- A serialized multiple_choice payload; `correct_option_ids = none`
(the redacted state, after `delete cloned.multiple_choice.correct_option_ids`)
omits the key. -/
def mcChars (m : MultipleChoice) : List Char :=
  objChars ([keyValChars "prompt" (strChars m.prompt),
      keyValChars "options" (arrChars (m.options.map mcOptionChars)),
      keyValChars "allow_multiple" (boolChars m.allow_multiple)] ++
    match m.correct_option_ids with
    | some ids => [keyValChars "correct_option_ids" (strArrChars ids)]
    | none => [])

/-- A serialized translation payload. -/
def trChars (t : Translation) : List Char :=
  objChars [keyValChars "text" (strChars t.text)]

/-- A serialized free_response payload. -/
def frChars (f : FreeResponse) : List Char :=
  objChars [keyValChars "language" (strChars f.language),
    keyValChars "prompt" (strChars f.prompt),
    keyValChars "rubric" (strChars f.rubric)]

/-- A serialized exercise (`JSON.stringify(active)`). -/
def exerciseChars (e : Exercise) : List Char :=
  objChars [keyValChars "enabled" (intChars e.enabled),
    keyValChars "exercise_id" (optStrChars e.exercise_id),
    keyValChars "problem_type" (optStrChars e.problem_type),
    keyValChars "translation" (optChars trChars e.translation),
    keyValChars "fill_in_blank" (optChars fibChars e.fill_in_blank),
    keyValChars "multiple_choice" (optChars mcChars e.multiple_choice),
    keyValChars "free_response" (optChars frChars e.free_response)]

/-- A serialized attempt (`JSON.stringify(attempt)`). -/
def attemptChars : Option Attempt → List Char
  | none => nullChars
  | some (.str s) => strChars s
  | some (.blanks entries) => objChars (entries.map fun kv => keyValChars kv.1 (strChars kv.2))
  | some (.choices ids) => strArrChars ids

/-- route.js `redactActiveForModel` on a non-null exercise: deep-copy,
then delete `expected_answers` from fill_in_blank blanks when the
problem_type is fill_in_blank, and `correct_option_ids` when it is
multiple_choice. -/
def redactExercise (e : Exercise) : Exercise :=
  { e with
    fill_in_blank :=
      if e.problem_type = some "fill_in_blank" then
        e.fill_in_blank.map fun fib =>
          { fib with blanks := fib.blanks.map fun b => { b with expected_answers := none } }
      else e.fill_in_blank,
    multiple_choice :=
      if e.problem_type = some "multiple_choice" then
        e.multiple_choice.map fun mc => { mc with correct_option_ids := none }
      else e.multiple_choice }

/-- route.js `redactActiveForModel(active)`: `null` for a non-object
input, otherwise the redacted clone. -/
def redactActiveForModel (active : Option Exercise) : Option Exercise :=
  active.map redactExercise

/-! ## Request preparation (route.js `POST`, lines 152–223)

Everything the route does before calling the LLM collaborator
(`client.responses.create`).  An `Except.error` outcome means the route
returned an error response without making the collaborator call; the
route holds no session state, so an error outcome has no side effects.

`prompts.json` is repo-level configuration that is not under `src/`;
its templates are modelled from the spec as parsed alternations of
literal text and `{{var}}` substitutions (route.js `renderTemplate`
resolves a `{{key}}` against the vars, an unknown key rendering as the
empty string). -/

/-- One piece of a parsed prompt template: literal text or a
`{{name}}` placeholder. -/
inductive TemplatePart where
  | lit (s : String)
  | var (name : String)
deriving DecidableEq, Repr

/-- route.js `renderTemplate(template, vars)` on a parsed template:
placeholders resolve against `vars`, missing keys render as `""`. -/
def renderTemplate (tpl : List TemplatePart) (vars : List (String × String)) : String :=
  String.join (tpl.map fun part =>
    match part with
    | .lit s => s
    | .var name => (vars.lookup name).getD "")

/-- Modelled from the spec: the prompt-template bundle loaded from the
repo-level `prompts.json` (not under `src/`): flat system-prompt lines,
a help-mode template and a post-clear template.  A missing or empty
entry is `none`. -/
structure Prompts where
  system_lines : Option (List (List TemplatePart))
  help_user_message_with_active : Option (List TemplatePart)
  help_user_message : Option (List TemplatePart)
  post_clear_user_message : Option (List TemplatePart)

/-- The `config` the route derives from the body. -/
structure Config where
  nativeLanguage : String
  targetLanguage : String
deriving DecidableEq, Repr

/-- A raw element of `body.messages` (`none` fields model missing or
non-string values; a wholly absent object is `none` in the list). -/
structure RawMsg where
  role : Option String
  content : Option String
deriving DecidableEq, Repr

/-- A sanitized chat message. -/
structure ChatMsg where
  role : String
  content : String
deriving DecidableEq, Repr

/-- route.js lines 170–174: keep only objects with a user/assistant
role and string content. -/
def sanitizeMessages (raw : Option (List (Option RawMsg))) : List ChatMsg :=
  (raw.getD []).filterMap fun m =>
    match m with
    | none => none
    | some msg =>
      match msg.role, msg.content with
      | some r, some c => if r = "user" ∨ r = "assistant" then some ⟨r, c⟩ else none
      | _, _ => none

/-- The clearing cause record (`{ kind: ... }`). -/
structure ClearedOutcome where
  kind : String
deriving DecidableEq, Repr

/-- `JSON.stringify(clearedOutcome)` for a non-null outcome. -/
def clearedOutcomeChars (o : ClearedOutcome) : List Char :=
  objChars [keyValChars "kind" (strChars o.kind)]

/-- The parsed POST body, with `none` for missing/mis-typed fields. -/
structure RequestBody where
  mode : Option String
  config_nativeLanguage : Option String
  config_targetLanguage : Option String
  messages : Option (List (Option RawMsg))
  active : Option Exercise
  attempt : Option Attempt
  cleared : Option Exercise
  clearedOutcome : Option ClearedOutcome
  userText : Option String

/-- The process environment as the route reads it. -/
structure Env where
  OPENAI_API_KEY : Option String
  OPENAI_MODEL : Option String
deriving DecidableEq, Repr

/-- The error responses the route can produce before the collaborator
call. -/
inductive RouteError where
  | missingApiKey
  | missingSystemLines
  | missingPostClearTemplate
  | noActiveExercise
  | missingUserText
deriving DecidableEq, Repr

/-- The HTTP status the route attaches to each pre-call error. -/
def routeErrorStatus : RouteError → Nat
  | .missingApiKey => 500
  | .missingSystemLines => 500
  | .missingPostClearTemplate => 500
  | .noActiveExercise => 400
  | .missingUserText => 400

/-- The prepared collaborator call: everything that is about to be sent
to `client.responses.create`. -/
structure PreparedCall where
  model : String
  effectiveMode : String
  systemPrompt : String
  messages : List ChatMsg
  userContent : String

/-- route.js line 163: unrecognized/missing modes fall back to chat. -/
def resolveMode (m : Option String) : String :=
  if m = some "help" then "help"
  else if m = some "post_clear" then "post_clear"
  else "chat"

/-- route.js `active && active.enabled === 1 && active.problem_type`
(a present exercise, enabled, with a truthy problem_type). -/
def activeQualifies (active : Option Exercise) : Bool :=
  match active with
  | some a =>
    a.enabled == 1 &&
      (match a.problem_type with
       | some pt => !(pt == "")
       | none => false)
  | none => false

/-- route.js line 191: an active exercise forces help mode except on
the post_clear follow-up. -/
def effectiveModeOf (mode : String) (active : Option Exercise) : String :=
  if mode ≠ "post_clear" ∧ activeQualifies active = true then "help" else mode

/-- route.js `buildSystemPrompt(config, prompts)`: joins the rendered
system lines; throws when `system_lines` is missing. -/
def buildSystemPrompt (config : Config) (prompts : Prompts) : Except RouteError String :=
  match prompts.system_lines with
  | none => .error .missingSystemLines
  | some lines =>
    .ok (String.intercalate "\n" (lines.map fun tpl =>
      renderTemplate tpl
        [("nativeLanguage", config.nativeLanguage),
         ("targetLanguage", config.targetLanguage)]))

/-- The help-mode user content: the help template rendered with the
user text, the redacted active-exercise JSON, the attempt JSON and the
help-context JSON (route.js lines 211–217). -/
def helpUserContent (tpl : List TemplatePart) (active : Option Exercise)
    (attempt : Option Attempt) (userText : String) : String :=
  renderTemplate tpl
    [("userText", userText),
     ("activeContextJson", ⟨optChars exerciseChars (redactActiveForModel active)⟩),
     ("attemptJson", ⟨attemptChars attempt⟩),
     ("helpContextJson",
       ⟨objChars [keyValChars "problem" (optChars exerciseChars (redactActiveForModel active))]⟩)]

/-- route.js `POST`, from parsing the body up to (but not including)
the collaborator call. -/
def routePrepare (env : Env) (prompts : Prompts) (body : RequestBody) :
    Except RouteError PreparedCall :=
  match env.OPENAI_API_KEY with
  | none => .error .missingApiKey
  | some _ =>
    let model := env.OPENAI_MODEL.getD "gpt-5.2"
    let mode := resolveMode body.mode
    let config : Config :=
      ⟨body.config_nativeLanguage.getD "English", body.config_targetLanguage.getD "Spanish"⟩
    let messages := sanitizeMessages body.messages
    match buildSystemPrompt config prompts with
    | .error e => .error e
    | .ok systemPrompt =>
      let userText := body.userText.getD ""
      let effectiveMode := effectiveModeOf mode body.active
      if effectiveMode = "post_clear" then
        match prompts.post_clear_user_message with
        | none => .error .missingPostClearTemplate
        | some tpl =>
          .ok ⟨model, effectiveMode, systemPrompt, messages,
            renderTemplate tpl
              [("clearedJson", ⟨optChars exerciseChars body.cleared⟩),
               ("clearedOutcomeJson", ⟨optChars clearedOutcomeChars body.clearedOutcome⟩)]⟩
      else if effectiveMode = "help" then
        if activeQualifies body.active = false then .error .noActiveExercise
        else if jsTrim userText = "" then .error .missingUserText
        else
          let tpl := (prompts.help_user_message_with_active.orElse
            fun _ => prompts.help_user_message).getD []
          .ok ⟨model, effectiveMode, systemPrompt, messages,
            helpUserContent tpl body.active body.attempt userText⟩
      else
        if jsTrim userText = "" then .error .missingUserText
        else .ok ⟨model, effectiveMode, systemPrompt, messages, userText⟩

/-- C10: a mode other than exactly "help" or "post_clear" (including a
missing one) is treated as chat, and the route behaves identically to an
explicit "chat" request: it never rejects because of the mode value. -/
theorem c10_unrecognized_mode_is_chat (m : Option String)
    (h1 : m ≠ some "help") (h2 : m ≠ some "post_clear") :
    resolveMode m = "chat" ∧
      ∀ (env : Env) (prompts : Prompts) (body : RequestBody),
        routePrepare env prompts { body with mode := m } =
          routePrepare env prompts { body with mode := some "chat" } := by
  have hr : resolveMode m = "chat" := by
    simp [resolveMode, h1, h2]
  refine ⟨hr, ?_⟩
  intro env prompts body
  simp only [routePrepare, hr]
  rfl

def envW : Env := ⟨some "k", none⟩

def promptsW : Prompts := ⟨some [], none, none, none⟩

def emptyBody : RequestBody := ⟨none, none, none, none, none, none, none, none, none⟩

/-- Witness for C10 at the unrecognized mode "onboarding". -/
theorem c10_unrecognized_mode_is_chat_witness :
    resolveMode (some "onboarding") = "chat" ∧
      routePrepare envW promptsW { emptyBody with mode := some "onboarding" } =
        routePrepare envW promptsW { emptyBody with mode := some "chat" } := by
  have h := c10_unrecognized_mode_is_chat (some "onboarding") (by decide) (by decide)
  exact ⟨h.1, h.2 envW promptsW emptyBody⟩

/-- C8: when the effective mode is help but there is no qualifying
active exercise or the user text is empty after trimming, the request is
rejected with a 400 error in the preparation phase — before the LLM
collaborator call is built — and, the route being stateless, with no
side effects. -/
theorem c8_help_mode_rejected_before_call
    (env : Env) (prompts : Prompts) (body : RequestBody)
    (k : String) (lines : List (List TemplatePart))
    (hk : env.OPENAI_API_KEY = some k)
    (hlines : prompts.system_lines = some lines)
    (hmode : effectiveModeOf (resolveMode body.mode) body.active = "help")
    (hbad : activeQualifies body.active = false ∨ jsTrim (body.userText.getD "") = "") :
    (routePrepare env prompts body = .error .noActiveExercise ∨
        routePrepare env prompts body = .error .missingUserText) ∧
      ∀ e, routePrepare env prompts body = .error e → routeErrorStatus e = 400 := by
  have hpc : ¬ ((effectiveModeOf (resolveMode body.mode) body.active) = "post_clear") := by
    rw [hmode]; decide
  cases hq : activeQualifies body.active with
  | false =>
    have hres : routePrepare env prompts body = .error .noActiveExercise := by
      simp only [routePrepare, hk, buildSystemPrompt, hlines]
      rw [if_neg hpc, if_pos hmode, if_pos hq]
    refine ⟨Or.inl hres, ?_⟩
    intro e he
    rw [hres] at he
    cases he
    rfl
  | true =>
    have hempty : jsTrim (body.userText.getD "") = "" := by
      rcases hbad with h | h
      · rw [hq] at h; cases h
      · exact h
    have hres : routePrepare env prompts body = .error .missingUserText := by
      simp only [routePrepare, hk, buildSystemPrompt, hlines]
      rw [if_neg hpc, if_pos hmode, if_neg (by rw [hq]; decide), if_pos hempty]
    refine ⟨Or.inr hres, ?_⟩
    intro e he
    rw [hres] at he
    cases he
    rfl

/-- Witness for C8: a help request with no active exercise is rejected
with the 400 no-active-exercise error. -/
theorem c8_help_mode_rejected_before_call_witness :
    (routePrepare envW promptsW { emptyBody with mode := some "help", userText := some "hi" } =
        .error .noActiveExercise ∨
      routePrepare envW promptsW { emptyBody with mode := some "help", userText := some "hi" } =
        .error .missingUserText) ∧
      ∀ e, routePrepare envW promptsW { emptyBody with mode := some "help", userText := some "hi" } =
        .error e → routeErrorStatus e = 400 :=
  c8_help_mode_rejected_before_call envW promptsW
    { emptyBody with mode := some "help", userText := some "hi" } "k" []
    rfl rfl (by decide) (Or.inl (by decide))

/-! ## Conversation controller (page.js)

The client-side state and the flows that clear the active exercise.
The API calls are external: each flow takes the outcome of the call it
makes as an `Except String NormalizedOutput` parameter (`.error` is a
failed fetch / non-ok response).  The second component of each result
counts the synthetic post_clear calls issued (`triggerPostClear`
invocations). -/

/-- A help offer attached to an assistant message. -/
structure HelpOffer where
  enabled : Int
  exercise_id : Option String
deriving DecidableEq, Repr

/-- A chat message as page.js stores it. -/
structure Message where
  role : String
  content : String
  flags : Option Flags
  proposal : Option Proposal
  poll : Option Poll
  help_offer : Option HelpOffer
  help_offer_accepted : Option Int
  poll_answer : Option String
deriving DecidableEq, Repr

/-- A plain user message. -/
def userMsg (content : String) : Message :=
  ⟨"user", content, none, none, none, none, none, none⟩

/-- A plain assistant message. -/
def assistantMsg (content : String) : Message :=
  ⟨"assistant", content, none, none, none, none, none, none⟩

/-- The assistant message built from an API result: flags always
copied, proposal/poll attached when enabled (page.js lines 540–545). -/
def assistantMsgFromResult (res : NormalizedOutput) (content : String) : Message :=
  ⟨"assistant", content, res.flags,
    if res.proposal.enabled = 1 then some res.proposal else none,
    if res.poll.enabled = 1 then some res.poll else none,
    none, none, none⟩

/-- The onboarding placement answers. -/
structure Placement where
  levelText : String
  focusText : String
deriving DecidableEq, Repr

/-- The page.js client state (the React state hooks). -/
structure ClientState where
  nativeLanguage : String
  targetLanguage : String
  messages : List Message
  conversationMode : String
  onboardingStep : Int
  placement : Placement
  active : Option Exercise
  attempt : Option Attempt
  pendingProposal : Option Proposal
  grade : Option Grade
  error : String
  loading : Bool
deriving DecidableEq, Repr

/-- page.js `triggerPostClear`: makes the synthetic post_clear call
(counted as 1), appends its response message, and records an enabled
proposal; never touches active/attempt/grade. -/
def triggerPostClear (s : ClientState) (pcr : Except String NormalizedOutput) :
    ClientState × Nat :=
  let s := { s with error := "", loading := true }
  match pcr with
  | .ok result =>
    let s :=
      match result.response with
      | some text => { s with messages := s.messages ++ [assistantMsgFromResult result text] }
      | none => s
    let s :=
      if result.proposal.enabled = 1 then { s with pendingProposal := some result.proposal }
      else s
    ({ s with loading := false }, 1)
  | .error e =>
    let s := { s with error := e, messages := s.messages ++ [assistantMsg ("Error: " ++ e)] }
    ({ s with loading := false }, 1)

/-- page.js `onClearActive` (the user Clear action). -/
def onClearActive (s : ClientState) (pcr : Except String NormalizedOutput) :
    ClientState × Nat :=
  if s.loading then (s, 0)
  else
    match s.active with
    | none => (s, 0)
    | some a =>
      if a.enabled ≠ 1 then (s, 0)
      else triggerPostClear { s with active := none, attempt := none, grade := none } pcr

/-- The canned help-offer message (page.js lines 660–666). -/
def helpOfferMessage (exercise_id : Option String) : Message :=
  ⟨"assistant", "It looks like that answer isn't fully correct. Want help?",
    none, none, none, some ⟨1, exercise_id⟩, none, none⟩

/-- Append the help offer unless the last message already carries an
unresolved offer for the same exercise id. -/
def appendHelpOffer (msgs : List Message) (a : Exercise) : List Message :=
  match msgs.getLast? with
  | some last =>
    match last.help_offer with
    | some ho =>
      if ho.enabled = 1 ∧ ho.exercise_id = a.exercise_id then msgs
      else msgs ++ [helpOfferMessage a.exercise_id]
    | none => msgs ++ [helpOfferMessage a.exercise_id]
  | none => msgs ++ [helpOfferMessage a.exercise_id]

/-- page.js `onSubmitObjective` (grading an objective exercise). -/
def onSubmitObjective (s : ClientState) (pcr : Except String NormalizedOutput) :
    ClientState × Nat :=
  match s.active with
  | none => (s, 0)
  | some a =>
    if a.enabled ≠ 1 then (s, 0)
    else
      match gradeObjective a s.attempt with
      | none => (s, 0)
      | some g =>
        let s := { s with grade := some g }
        if g.allCorrect then
          triggerPostClear { s with active := none, attempt := none } pcr
        else
          ({ s with messages := appendHelpOffer s.messages a }, 0)

/-- The second scripted onboarding question. -/
def onboardingQuestion2 : String :=
  "2) What do you want to focus on right now? (speaking, writing, grammar, vocab, travel, work, etc.)"

/-- page.js line 548: `active && active.enabled === 1` (the model-clear
guard; note no problem_type check here). -/
def activeEnabledOne (active : Option Exercise) : Bool :=
  match active with
  | some a => a.enabled == 1
  | none => false

/-- page.js `sendText`: the user-text turn.  `r` is the outcome of the
API call this turn makes (placement call in onboarding step 1, help or
chat call otherwise); `pcr` the outcome of the chained post_clear call
when one is issued. -/
def sendText (s : ClientState) (text : String) (r pcr : Except String NormalizedOutput) :
    ClientState × Nat :=
  let cleaned := jsTrim text
  if cleaned = "" ∨ s.loading then (s, 0)
  else
    let s := { s with error := "" }
    let s := { s with messages := s.messages ++ [userMsg cleaned] }
    if s.conversationMode = "onboarding" ∧ s.onboardingStep = (0 : Int) then
      ({ s with
          placement := { s.placement with levelText := cleaned },
          messages := s.messages ++ [assistantMsg onboardingQuestion2],
          onboardingStep := 1 }, 0)
    else if s.conversationMode = "onboarding" ∧ s.onboardingStep = (1 : Int) then
      let s := { s with placement := { s.placement with focusText := cleaned }, loading := true }
      match r with
      | .ok result =>
        let s := { s with conversationMode := "chat", onboardingStep := 2 }
        let s :=
          match result.response with
          | some t => { s with messages := s.messages ++ [assistantMsgFromResult result t] }
          | none => s
        let s :=
          if result.proposal.enabled = 1 then { s with pendingProposal := some result.proposal }
          else s
        let s :=
          if result.clear_active = 1 then { s with active := none, attempt := none, grade := none }
          else s
        ({ s with loading := false }, 0)
      | .error e =>
        let s := { s with error := e, messages := s.messages ++ [assistantMsg ("Error: " ++ e)] }
        ({ s with loading := false }, 0)
    else
      let s := { s with loading := true }
      match r with
      | .ok result =>
        let s :=
          match result.response with
          | some t => { s with messages := s.messages ++ [assistantMsgFromResult result t] }
          | none => s
        let res :=
          if result.clear_active = 1 ∧ activeEnabledOne s.active = true then
            triggerPostClear { s with active := none, attempt := none, grade := none } pcr
          else (s, 0)
        let s2 :=
          if result.proposal.enabled = 1 then { res.1 with pendingProposal := some result.proposal }
          else res.1
        ({ s2 with loading := false }, res.2)
      | .error e =>
        let s := { s with error := e, messages := s.messages ++ [assistantMsg ("Error: " ++ e)] }
        ({ s with loading := false }, 0)


/-- `triggerPostClear` never touches `active`. -/
theorem triggerPostClear_active (s : ClientState) (pcr : Except String NormalizedOutput) :
    (triggerPostClear s pcr).1.active = s.active := by
  cases pcr with
  | ok result =>
    unfold triggerPostClear
    cases hres : result.response <;>
      by_cases hpe : result.proposal.enabled = 1 <;>
      simp [hres, hpe]
  | error e => simp [triggerPostClear]

/-- `triggerPostClear` never touches `attempt`. -/
theorem triggerPostClear_attempt (s : ClientState) (pcr : Except String NormalizedOutput) :
    (triggerPostClear s pcr).1.attempt = s.attempt := by
  cases pcr with
  | ok result =>
    unfold triggerPostClear
    cases hres : result.response <;>
      by_cases hpe : result.proposal.enabled = 1 <;>
      simp [hres, hpe]
  | error e => simp [triggerPostClear]

/-- `triggerPostClear` never touches `grade`. -/
theorem triggerPostClear_grade (s : ClientState) (pcr : Except String NormalizedOutput) :
    (triggerPostClear s pcr).1.grade = s.grade := by
  cases pcr with
  | ok result =>
    unfold triggerPostClear
    cases hres : result.response <;>
      by_cases hpe : result.proposal.enabled = 1 <;>
      simp [hres, hpe]
  | error e => simp [triggerPostClear]

/-- `triggerPostClear` issues exactly one post_clear call. -/
theorem triggerPostClear_count (s : ClientState) (pcr : Except String NormalizedOutput) :
    (triggerPostClear s pcr).2 = 1 := by
  cases pcr with
  | ok result =>
    unfold triggerPostClear
    cases hres : result.response <;>
      by_cases hpe : result.proposal.enabled = 1 <;>
      simp [hres, hpe]
  | error e => simp [triggerPostClear]

/-- C1 (amended): every clear path nulls `active` and `attempt` and
issues exactly one synthetic post_clear call; `grade` is nulled by the
user Clear action and the model clear, but the objective-correct path
stores the just-computed grading result in `grade` instead of null. -/
theorem c1_clear_flows (s : ClientState) (pcr : Except String NormalizedOutput) :
    (∀ a : Exercise, s.loading = false → s.active = some a → a.enabled = 1 →
      (onClearActive s pcr).1.active = none ∧ (onClearActive s pcr).1.attempt = none ∧
        (onClearActive s pcr).1.grade = none ∧ (onClearActive s pcr).2 = 1) ∧
      (∀ (a : Exercise) (g : Grade), s.active = some a → a.enabled = 1 →
        gradeObjective a s.attempt = some g → g.allCorrect = true →
        (onSubmitObjective s pcr).1.active = none ∧ (onSubmitObjective s pcr).1.attempt = none ∧
          (onSubmitObjective s pcr).1.grade = some g ∧ (onSubmitObjective s pcr).2 = 1) ∧
      (∀ (text : String) (r : Except String NormalizedOutput) (result : NormalizedOutput)
          (a : Exercise),
        s.loading = false → jsTrim text ≠ "" →
        ¬(s.conversationMode = "onboarding" ∧ s.onboardingStep = (0 : Int)) →
        ¬(s.conversationMode = "onboarding" ∧ s.onboardingStep = (1 : Int)) →
        r = Except.ok result → result.clear_active = 1 →
        s.active = some a → a.enabled = 1 →
        (sendText s text r pcr).1.active = none ∧ (sendText s text r pcr).1.attempt = none ∧
          (sendText s text r pcr).1.grade = none ∧ (sendText s text r pcr).2 = 1) := by
  refine ⟨?_, ?_, ?_⟩
  · intro a hl ha he
    unfold onClearActive
    rw [hl, ha]
    simp [he, triggerPostClear_active, triggerPostClear_attempt, triggerPostClear_grade,
      triggerPostClear_count]
  · intro a g ha he hg hc
    unfold onSubmitObjective
    simp [ha, he, hg, hc, triggerPostClear_active, triggerPostClear_attempt,
      triggerPostClear_grade, triggerPostClear_count]
  · intro text r result a hl htext hm0 hm1 hr hca ha he
    unfold sendText
    rw [hr]
    have hcl : ¬(jsTrim text = "" ∨ s.loading = true) := by
      rw [hl]; simpa using htext
    rw [if_neg hcl]
    simp only [if_neg hm0, if_neg hm1]
    have hq : activeEnabledOne s.active = true := by
      simp [activeEnabledOne, ha, he]
    cases hres : result.response <;>
      by_cases hpe : result.proposal.enabled = 1 <;>
        simp [hres, hpe, hca, hq, triggerPostClear_active, triggerPostClear_attempt,
          triggerPostClear_grade, triggerPostClear_count]

def c1Ex : Exercise :=
  ⟨1, some "ce1", some "multiple_choice", none, none,
    some ⟨"Pick the greeting", [⟨"a", "A"⟩], false, some ["a"]⟩, none⟩

def c1State : ClientState :=
  ⟨"English", "Spanish", [], "chat", 2, ⟨"", ""⟩, some c1Ex,
    some (.choices ["a"]), none, none, "", false⟩

def c1Result : NormalizedOutput := ⟨some "done", none, disabledProposal, disabledPoll, 0⟩

/-- Witness for C1 (amended): a concrete user Clear nulls active,
attempt and grade and issues exactly one post_clear call. -/
theorem c1_clear_flows_witness :
    (onClearActive c1State (Except.ok c1Result)).1.active = none ∧
      (onClearActive c1State (Except.ok c1Result)).1.attempt = none ∧
      (onClearActive c1State (Except.ok c1Result)).1.grade = none ∧
      (onClearActive c1State (Except.ok c1Result)).2 = 1 :=
  (c1_clear_flows c1State (Except.ok c1Result)).1 c1Ex rfl rfl rfl

/-- Counterexample to C1 as stated: the objective-correct clear nulls
active and attempt and issues its single post_clear call, but `grade`
is left holding the grading result, not null. -/
theorem c1_objective_clear_keeps_grade :
    (onSubmitObjective c1State (Except.ok c1Result)).1.active = none ∧
      (onSubmitObjective c1State (Except.ok c1Result)).1.attempt = none ∧
      (onSubmitObjective c1State (Except.ok c1Result)).2 = 1 ∧
      (onSubmitObjective c1State (Except.ok c1Result)).1.grade ≠ none := by
  decide

/-! ## Payload-nullity invariant (claim C3) and exercise activation -/

/-- The claimed invariant for a proposal: disabled means all payloads
null; enabled means exactly one payload non-null, matching
problem_type. -/
def ProposalInvariant (p : Proposal) : Prop :=
  (p.enabled = 0 → p.translation = none ∧ p.fill_in_blank = none ∧
    p.multiple_choice = none ∧ p.free_response = none) ∧
  (p.enabled = 1 →
    (p.problem_type = some "translation" ∧ p.translation.isSome = true ∧
        p.fill_in_blank = none ∧ p.multiple_choice = none ∧ p.free_response = none) ∨
      (p.problem_type = some "fill_in_blank" ∧ p.fill_in_blank.isSome = true ∧
        p.translation = none ∧ p.multiple_choice = none ∧ p.free_response = none) ∨
      (p.problem_type = some "multiple_choice" ∧ p.multiple_choice.isSome = true ∧
        p.translation = none ∧ p.fill_in_blank = none ∧ p.free_response = none) ∨
      (p.problem_type = some "free_response" ∧ p.free_response.isSome = true ∧
        p.translation = none ∧ p.fill_in_blank = none ∧ p.multiple_choice = none))

/-- The claimed invariant for an exercise. -/
def ExerciseInvariant (e : Exercise) : Prop :=
  (e.enabled = 0 → e.translation = none ∧ e.fill_in_blank = none ∧
    e.multiple_choice = none ∧ e.free_response = none) ∧
  (e.enabled = 1 →
    (e.problem_type = some "translation" ∧ e.translation.isSome = true ∧
        e.fill_in_blank = none ∧ e.multiple_choice = none ∧ e.free_response = none) ∨
      (e.problem_type = some "fill_in_blank" ∧ e.fill_in_blank.isSome = true ∧
        e.translation = none ∧ e.multiple_choice = none ∧ e.free_response = none) ∨
      (e.problem_type = some "multiple_choice" ∧ e.multiple_choice.isSome = true ∧
        e.translation = none ∧ e.fill_in_blank = none ∧ e.free_response = none) ∨
      (e.problem_type = some "free_response" ∧ e.free_response.isSome = true ∧
        e.translation = none ∧ e.fill_in_blank = none ∧ e.multiple_choice = none))

/-- The claimed invariant for a poll (no problem_type; disabled means
all payload fields null). -/
def PollInvariant (q : Poll) : Prop :=
  (q.enabled = 0 → q.poll_id = none ∧ q.question = none ∧ q.options = none) ∧
  (q.enabled = 1 → q.question.isSome = true ∧ q.options.isSome = true)

instance (p : Proposal) : Decidable (ProposalInvariant p) := by
  unfold ProposalInvariant
  refine @instDecidableAnd _ _ ?_ ?_ <;> infer_instance

instance (e : Exercise) : Decidable (ExerciseInvariant e) := by
  unfold ExerciseInvariant
  refine @instDecidableAnd _ _ ?_ ?_ <;> infer_instance

instance (q : Poll) : Decidable (PollInvariant q) := by
  unfold PollInvariant; infer_instance

/-- page.js `makeActiveFromProposal(proposal)`: copies every payload
field of the proposal into the new active exercise. -/
def makeActiveFromProposal (proposal : Option Proposal) : Option Exercise :=
  match proposal with
  | none => none
  | some p =>
    if p.enabled ≠ 1 then none
    else
      match p.problem_type with
      | none => none
      | some pt =>
        if pt = "" then none
        else
          some ⟨1, p.proposal_id, some pt, p.translation, p.fill_in_blank,
            p.multiple_choice, p.free_response⟩

/-- page.js `placementFreeResponseProposal({ level, focusText })`.
`Date.now()` is passed in as `nowMs`. -/
def placementFreeResponseProposal (targetLanguage : String) (nowMs : Nat)
    (level : String) (focusText : String) : Proposal :=
  let id := "placement_" ++ toString nowMs
  let focus := jsTrim focusText
  let pr :=
    if level = "A1" ∨ level = "A2" then
      ("In " ++ targetLanguage ++
          ", write 2–4 short sentences introducing yourself (name, where you're from, and one hobby).",
        "Short, simple sentences; correct basic word order; understandable meaning.")
    else if level = "B2" ∨ level = "C1" ∨ level = "C2" then
      (jsTrim ("In " ++ targetLanguage ++
          ", write a short paragraph (5–8 sentences) giving an opinion on a topic you care about. Include one example. " ++
          (if focus ≠ "" then "Try to relate it to: " ++ focus ++ "." else "")),
        "Clear opinion; cohesive paragraph; varied vocabulary; mostly correct grammar.")
    else
      (jsTrim ("In " ++ targetLanguage ++
          ", write 4–6 sentences about your last weekend (what you did, where you went, and how you felt). " ++
          (if focus ≠ "" then "Try to include vocabulary related to: " ++ focus ++ "." else "")),
        "Past tense narration; clear sequence; understandable meaning; some variety in vocabulary.")
  ⟨1, some id, some "free_response", none, none, none,
    some ⟨targetLanguage, pr.1, pr.2⟩⟩

/-- C3 (amended): the canonical constructors satisfy the invariant, and
activation preserves it; but nothing enforces it on proposals taken
from model output (see the counterexample). -/
theorem c3_invariant_constructors :
    ProposalInvariant disabledProposal ∧
      PollInvariant disabledPoll ∧
      (∀ (tl : String) (nowMs : Nat) (level focus : String),
        ProposalInvariant (placementFreeResponseProposal tl nowMs level focus)) ∧
      (∀ (p : Proposal) (e : Exercise), ProposalInvariant p →
        makeActiveFromProposal (some p) = some e → ExerciseInvariant e) := by
  refine ⟨by decide, by decide, ?_, ?_⟩
  · intro tl nowMs level focus
    constructor
    · intro h
      exact absurd h (by simp [placementFreeResponseProposal])
    · intro _
      refine Or.inr (Or.inr (Or.inr ?_))
      simp [placementFreeResponseProposal]
  · intro p e hp hmk
    simp only [makeActiveFromProposal] at hmk
    by_cases he : p.enabled = 1
    · rw [if_neg (by simpa using he)] at hmk
      cases hpt : p.problem_type with
      | none => simp only [hpt] at hmk; cases hmk
      | some pt =>
        simp only [hpt] at hmk
        by_cases hpt0 : pt = ""
        · rw [if_pos hpt0] at hmk; cases hmk
        · rw [if_neg hpt0] at hmk
          injection hmk with hmk
          subst hmk
          constructor
          · intro h
            exact absurd h (by norm_num : ¬(1 : Int) = 0)
          · intro _
            rcases hp.2 he with ⟨h1, h2⟩ | ⟨h1, h2⟩ | ⟨h1, h2⟩ | ⟨h1, h2⟩ <;>
              rw [hpt] at h1 <;> injection h1 with h1 <;> subst h1
            · exact Or.inl ⟨rfl, h2⟩
            · exact Or.inr (Or.inl ⟨rfl, h2⟩)
            · exact Or.inr (Or.inr (Or.inl ⟨rfl, h2⟩))
            · exact Or.inr (Or.inr (Or.inr ⟨rfl, h2⟩))
    · rw [if_pos (by simpa using he)] at hmk
      cases hmk

def badProposal : Proposal :=
  ⟨1, some "p_bad", some "translation", some ⟨"hola"⟩,
    some ⟨"Fill this", [⟨"b1", "x ____", some ["soy"]⟩]⟩, none, none⟩

def badRaw : RawModelOutput := ⟨some "ok", none, some badProposal, none, none⟩

def badExercise : Exercise :=
  ⟨1, some "p_bad", some "translation", some ⟨"hola"⟩,
    some ⟨"Fill this", [⟨"b1", "x ____", some ["soy"]⟩]⟩, none, none⟩

/-- Counterexample to C3 as stated: a model proposal with two
populated payloads passes the normalizer untouched and activates into
an exercise with enabled = 1 and two non-null payloads. -/
theorem c3_invariant_violated_by_model_values :
    (normalizeModelOutput (some badRaw) "chat").proposal = badProposal ∧
      makeActiveFromProposal (some badProposal) = some badExercise ∧
      badExercise.enabled = 1 ∧ badExercise.translation ≠ none ∧
      badExercise.fill_in_blank ≠ none ∧ ¬ ProposalInvariant badProposal ∧
      ¬ ExerciseInvariant badExercise := by
  decide

/-- Witness for C3 (amended) at concrete inputs: a concrete placement
proposal satisfies the invariant and its activation does too. -/
theorem c3_invariant_constructors_witness :
    ProposalInvariant (placementFreeResponseProposal "Spanish" 42 "B1" "travel") ∧
      ExerciseInvariant
        ⟨1, some "placement_42", some "free_response", none, none, none,
          some ((placementFreeResponseProposal "Spanish" 42 "B1" "travel").free_response.getD
            ⟨"", "", ""⟩)⟩ := by
  constructor
  · exact (c3_invariant_constructors).2.2.1 "Spanish" 42 "B1" "travel"
  · refine (c3_invariant_constructors).2.2.2
      (placementFreeResponseProposal "Spanish" 42 "B1" "travel") _
      ((c3_invariant_constructors).2.2.1 "Spanish" 42 "B1" "travel") ?_
    decide

/-! ## Substring-freeness of the serialized help context (claim C4)

The two answer-key substrings consist of letters and `_` only; every
token boundary in the serialized JSON carries a non-word character
(quote, brace, bracket, comma, colon, backslash, digits), so an
occurrence of such a substring cannot span a boundary: it must lie
inside a single string literal or key. -/

/-- Decomposition of an infix of an append: it lies in the left part,
in the right part, or spans the boundary. -/
theorem infix_append_cases {α : Type} (p a b : List α) (h : p <:+: a ++ b) :
    p <:+: a ∨ p <:+: b ∨
      ∃ p1 p2, p = p1 ++ p2 ∧ p1 ≠ [] ∧ p2 ≠ [] ∧ p1 <:+ a ∧ p2 <+: b := by
  obtain ⟨s, t, hst⟩ := h
  rw [List.append_assoc] at hst
  rcases List.append_eq_append_iff.mp hst with ⟨e, he1, he2⟩ | ⟨c', hc1, hc2⟩
  · rcases List.append_eq_append_iff.mp he2 with ⟨f, hf1, hf2⟩ | ⟨g, hg1, hg2⟩
    · left
      exact ⟨s, f, by rw [he1, hf1, List.append_assoc]⟩
    · rcases eq_or_ne e [] with rfl | hne
      · right; left
        rw [List.nil_append] at hg1
        subst hg1
        exact List.IsPrefix.isInfix ⟨t, hg2.symm⟩
      · rcases eq_or_ne g [] with rfl | hg
        · left
          rw [List.append_nil] at hg1
          subst hg1
          exact List.IsSuffix.isInfix ⟨s, he1.symm⟩
        · right; right
          exact ⟨e, g, hg1, hne, hg, ⟨s, he1.symm⟩, ⟨t, hg2.symm⟩⟩
  · right; left
    exact ⟨c', t, by rw [hc2, List.append_assoc]⟩

/-- A word-only pattern cannot span a boundary whose right side starts
with a non-word char. -/
theorem not_infix_append_headSep (p a b : List Char)
    (hw : ∀ c ∈ p, isWordCharJs c = true)
    (hbh : ∀ d ∈ b.head?, isWordCharJs d = false)
    (ha : ¬ p <:+: a) (hb : ¬ p <:+: b) : ¬ p <:+: a ++ b := by
  intro h
  rcases infix_append_cases p a b h with h | h | ⟨p1, p2, hp, hp1, hp2, hs, hpre⟩
  · exact ha h
  · exact hb h
  · cases p2 with
    | nil => exact hp2 rfl
    | cons d p2' =>
      obtain ⟨t, ht⟩ := hpre
      have hd : d ∈ b.head? := by
        rw [← ht]; rfl
      have hdw : isWordCharJs d = true :=
        hw d (by rw [hp]; exact List.mem_append.mpr (Or.inr (List.mem_cons_self _ _)))
      rw [hbh d hd] at hdw
      cases hdw

/-- A word-only pattern cannot span a boundary whose left side ends
with a non-word char. -/
theorem not_infix_append_lastSep (p a b : List Char)
    (hw : ∀ c ∈ p, isWordCharJs c = true)
    (hal : ∀ d ∈ a.getLast?, isWordCharJs d = false)
    (ha : ¬ p <:+: a) (hb : ¬ p <:+: b) : ¬ p <:+: a ++ b := by
  intro h
  rcases infix_append_cases p a b h with h | h | ⟨p1, p2, hp, hp1, hp2, hs, hpre⟩
  · exact ha h
  · exact hb h
  · obtain ⟨s, hsa⟩ := hs
    obtain ⟨d, hd⟩ := Option.isSome_iff_exists.mp (List.getLast?_isSome.mpr hp1)
    have hda : d ∈ a.getLast? := by
      rw [← hsa, List.getLast?_append, hd]
      rfl
    have hdw : isWordCharJs d = true :=
      hw d (by rw [hp]; exact List.mem_append.mpr (Or.inl (List.mem_of_mem_getLast? hd)))
    rw [hal d hda] at hdw
    cases hdw

/-- A pattern containing `_` is no infix of a `_`-free list. -/
theorem not_infix_of_us (p l : List Char) (hu : '_' ∈ p) (hl : '_' ∉ l) : ¬ p <:+: l :=
  fun h => hl (h.subset hu)

/-- Escaping only inserts backslashes, so a word-only prefix of the
escaped text is a prefix of the original. -/
theorem pref_of_pref_escList (p : List Char) (hw : ∀ c ∈ p, isWordCharJs c = true) :
    ∀ l : List Char, p <+: escList l → p <+: l := by
  induction p with
  | nil => exact fun l _ => List.nil_prefix
  | cons c p' ih =>
    intro l h
    cases l with
    | nil =>
      rw [show escList [] = [] from rfl, List.prefix_nil] at h
      cases h
    | cons d l' =>
      have hesc : escList (d :: l') = escChar d ++ escList l' := by
        simp [escList]
      rw [hesc] at h
      by_cases hd : d = quoteC ∨ d = backslashC
      · rw [show escChar d = [backslashC, d] from by simp [escChar, hd]] at h
        obtain ⟨hc, -⟩ := List.cons_prefix_cons.mp h
        have := hw c (List.mem_cons_self _ _)
        rw [hc] at this
        cases this
      · rw [show escChar d = [d] from by simp [escChar, hd]] at h
        obtain ⟨hc, hrest⟩ := List.cons_prefix_cons.mp h
        subst hc
        exact List.cons_prefix_cons.mpr ⟨rfl, ih (fun x hx => hw x (List.mem_cons_of_mem _ hx)) l' hrest⟩

/-- Escaping only inserts backslashes, so a nonempty word-only infix of
the escaped text is an infix of the original. -/
theorem infix_of_infix_escList (p : List Char) (hp : p ≠ [])
    (hw : ∀ c ∈ p, isWordCharJs c = true) :
    ∀ l : List Char, p <:+: escList l → p <:+: l := by
  intro l
  induction l with
  | nil =>
    intro h
    exact h
  | cons d l' ih =>
    intro h
    have hesc : escList (d :: l') = escChar d ++ escList l' := by
      simp [escList]
    rw [hesc] at h
    have hheadword : ∀ q : List Char, p <+: q → q.head? = some quoteC ∨ q.head? = some backslashC → False := by
      intro q hq hqh
      cases p with
      | nil => exact hp rfl
      | cons c p' =>
        cases q with
        | nil => rw [List.prefix_nil] at hq; cases hq
        | cons e q' =>
          obtain ⟨hc, -⟩ := List.cons_prefix_cons.mp hq
          have := hw c (List.mem_cons_self _ _)
          subst hc
          rcases hqh with hk | hk <;> (injection hk with hk; rw [hk] at this; cases this)
    by_cases hd : d = quoteC ∨ d = backslashC
    · rw [show escChar d = [backslashC, d] from by simp [escChar, hd]] at h
      rcases List.infix_cons_iff.mp h with hpre | h2
      · exact absurd (Or.inr rfl) (fun hk => hheadword _ hpre hk)
      · rcases List.infix_cons_iff.mp h2 with hpre | h3
        · have : (d :: escList l').head? = some quoteC ∨ (d :: escList l').head? = some backslashC := by
            rcases hd with rfl | rfl
            · exact Or.inl rfl
            · exact Or.inr rfl
          exact absurd this (fun hk => hheadword _ hpre hk)
        · exact List.infix_cons (ih h3)
    · rw [show escChar d = [d] from by simp [escChar, hd]] at h
      rcases List.infix_cons_iff.mp h with hpre | h2
      · cases p with
        | nil => exact absurd rfl hp
        | cons c p' =>
          obtain ⟨hc, hrest⟩ := List.cons_prefix_cons.mp hpre
          subst hc
          have : c :: p' <+: c :: l' := List.cons_prefix_cons.mpr
            ⟨rfl, pref_of_pref_escList p' (fun x hx => hw x (List.mem_cons_of_mem _ hx)) l' hrest⟩
          exact this.isInfix
      · exact List.infix_cons (ih h2)

theorem digitChar_ne_us (d : Nat) : digitChar d ≠ '_' := by
  unfold digitChar
  split_ifs <;> decide

theorem us_not_mem_natCharsAux (fuel : Nat) : ∀ n, '_' ∉ natCharsAux fuel n := by
  induction fuel with
  | zero => intro n h; cases h
  | succ fuel ih =>
    intro n h
    unfold natCharsAux at h
    by_cases hn : n < 10
    · rw [if_pos hn] at h
      rcases List.mem_singleton.mp h with h
      exact digitChar_ne_us n h.symm
    · rw [if_neg hn] at h
      rcases List.mem_append.mp h with h | h
      · exact ih _ h
      · exact digitChar_ne_us _ (List.mem_singleton.mp h).symm

theorem us_not_mem_intChars (i : Int) : '_' ∉ intChars i := by
  cases i with
  | ofNat n => exact us_not_mem_natCharsAux _ n
  | negSucc m =>
    intro h
    rcases List.mem_cons.mp h with h | h
    · cases h
    · exact us_not_mem_natCharsAux _ _ h

/-- The facts needed of an answer-key pattern: word-only chars, an
underscore, and no occurrence in any fixed JSON key the serializers
emit. -/
structure PatternOk (p : List Char) : Prop where
  word : ∀ c ∈ p, isWordCharJs c = true
  uscore : '_' ∈ p
  keys : ∀ k ∈ ["id", "text_with_placeholder", "prompt", "blanks", "options",
    "allow_multiple", "enabled", "exercise_id", "problem_type", "translation",
    "fill_in_blank", "multiple_choice", "free_response", "text", "language",
    "rubric", "kind", "problem"], ¬ p <:+: (k : String).data

theorem PatternOk.ne {p : List Char} (h : PatternOk p) : p ≠ [] :=
  List.ne_nil_of_mem h.uscore

theorem strChars_clean {p : List Char} (hpo : PatternOk p) (s : String)
    (hns : ¬ p <:+: s.data) : ¬ p <:+: strChars s := by
  have h1 : ¬ p <:+: [quoteC] := not_infix_of_us _ _ hpo.uscore (by decide)
  have h2 : ¬ p <:+: escString s :=
    fun hc => hns (infix_of_infix_escList p hpo.ne hpo.word s.data hc)
  have h3 : ¬ p <:+: (escString s ++ [quoteC]) := by
    refine not_infix_append_headSep p _ _ hpo.word ?_ h2 h1
    intro d hd
    injection hd with hd
    rw [← hd]
    decide
  have h4 : ¬ p <:+: ([quoteC] ++ (escString s ++ [quoteC])) := by
    refine not_infix_append_lastSep p _ _ hpo.word ?_ h1 h3
    intro d hd
    injection hd with hd
    rw [← hd]
    decide
  simpa [strChars] using h4

theorem keyValChars_clean {p : List Char} (hpo : PatternOk p) (k : String) (v : List Char)
    (hk : ¬ p <:+: k.data) (hv : ¬ p <:+: v) : ¬ p <:+: keyValChars k v := by
  have hlast : (strChars k).getLast? = some quoteC := by
    show (quoteC :: (escString k ++ [quoteC])).getLast? = some quoteC
    rw [← List.cons_append, List.getLast?_concat]
  have hcv : ¬ p <:+: (':' :: v) := by
    have h1 : ¬ p <:+: [':'] := not_infix_of_us _ _ hpo.uscore (by decide)
    have := not_infix_append_lastSep p [':'] v hpo.word (by intro d hd; injection hd with hd; rw [← hd]; decide) h1 hv
    simpa using this
  refine not_infix_append_lastSep p _ _ hpo.word ?_ (strChars_clean hpo k hk) hcv
  intro d hd
  rw [hlast] at hd
  injection hd with hd
  rw [← hd]
  decide

theorem commaJoin_clean {p : List Char} (hpo : PatternOk p) (chunks : List (List Char))
    (h : ∀ x ∈ chunks, ¬ p <:+: x) : ¬ p <:+: commaJoin chunks := by
  induction chunks with
  | nil => exact not_infix_of_us _ _ hpo.uscore (by decide)
  | cons x xs ih =>
    cases xs with
    | nil => exact h x (List.mem_cons_self _ _)
    | cons y ys =>
      have hx := h x (List.mem_cons_self _ _)
      have hrest : ¬ p <:+: (',' :: commaJoin (y :: ys)) := by
        have h1 : ¬ p <:+: [','] := not_infix_of_us _ _ hpo.uscore (by decide)
        have h2 := ih (fun z hz => h z (List.mem_cons_of_mem _ hz))
        have := not_infix_append_lastSep p [','] _ hpo.word
          (by intro d hd; injection hd with hd; rw [← hd]; decide) h1 h2
        simpa using this
      have := not_infix_append_headSep p x (',' :: commaJoin (y :: ys)) hpo.word
        (by intro d hd; injection hd with hd; rw [← hd]; decide) hx hrest
      simpa [commaJoin] using this

theorem objChars_clean {p : List Char} (hpo : PatternOk p) (fields : List (List Char))
    (h : ∀ x ∈ fields, ¬ p <:+: x) : ¬ p <:+: objChars fields := by
  have hopen : ¬ p <:+: ['\x7b'] := not_infix_of_us _ _ hpo.uscore (by decide)
  have hclose : ¬ p <:+: ['\x7d'] := not_infix_of_us _ _ hpo.uscore (by decide)
  have hmid : ¬ p <:+: (commaJoin fields ++ ['\x7d']) := by
    refine not_infix_append_headSep p _ _ hpo.word ?_ (commaJoin_clean hpo fields h) hclose
    intro d hd
    injection hd with hd
    rw [← hd]
    decide
  have := not_infix_append_lastSep p ['\x7b'] _ hpo.word
    (by intro d hd; injection hd with hd; rw [← hd]; decide) hopen hmid
  simpa [objChars] using this

theorem arrChars_clean {p : List Char} (hpo : PatternOk p) (items : List (List Char))
    (h : ∀ x ∈ items, ¬ p <:+: x) : ¬ p <:+: arrChars items := by
  have hopen : ¬ p <:+: ['['] := not_infix_of_us _ _ hpo.uscore (by decide)
  have hclose : ¬ p <:+: [']'] := not_infix_of_us _ _ hpo.uscore (by decide)
  have hmid : ¬ p <:+: (commaJoin items ++ [']']) := by
    refine not_infix_append_headSep p _ _ hpo.word ?_ (commaJoin_clean hpo items h) hclose
    intro d hd
    injection hd with hd
    rw [← hd]
    decide
  have := not_infix_append_lastSep p ['['] _ hpo.word
    (by intro d hd; injection hd with hd; rw [← hd]; decide) hopen hmid
  simpa [arrChars] using this

theorem nullChars_clean {p : List Char} (hpo : PatternOk p) : ¬ p <:+: nullChars :=
  not_infix_of_us _ _ hpo.uscore (by decide)

theorem boolChars_clean {p : List Char} (hpo : PatternOk p) (b : Bool) :
    ¬ p <:+: boolChars b := by
  cases b <;> exact not_infix_of_us _ _ hpo.uscore (by decide)

theorem intChars_clean {p : List Char} (hpo : PatternOk p) (i : Int) :
    ¬ p <:+: intChars i :=
  not_infix_of_us _ _ hpo.uscore (us_not_mem_intChars i)

theorem optStrChars_clean {p : List Char} (hpo : PatternOk p) (o : Option String)
    (h : ∀ s ∈ o, ¬ p <:+: s.data) : ¬ p <:+: optStrChars o := by
  cases o with
  | none => exact nullChars_clean hpo
  | some s => exact strChars_clean hpo s (h s rfl)

theorem strArrChars_clean {p : List Char} (hpo : PatternOk p) (xs : List String)
    (h : ∀ s ∈ xs, ¬ p <:+: s.data) : ¬ p <:+: strArrChars xs := by
  refine arrChars_clean hpo _ ?_
  intro x hx
  obtain ⟨s, hs, rfl⟩ := List.mem_map.mp hx
  exact strChars_clean hpo s (h s hs)

theorem blankChars_clean {p : List Char} (hpo : PatternOk p) (b : Blank)
    (hred : b.expected_answers = none)
    (hid : ¬ p <:+: b.id.data) (htxt : ¬ p <:+: b.text_with_placeholder.data) :
    ¬ p <:+: blankChars b := by
  unfold blankChars
  rw [hred]
  refine objChars_clean hpo _ ?_
  intro x hx
  simp only [List.append_nil, List.mem_cons, List.not_mem_nil, or_false] at hx
  rcases hx with rfl | rfl
  · exact keyValChars_clean hpo _ _ (hpo.keys "id" (by decide)) (strChars_clean hpo _ hid)
  · exact keyValChars_clean hpo _ _ (hpo.keys "text_with_placeholder" (by decide))
      (strChars_clean hpo _ htxt)

theorem fibChars_clean {p : List Char} (hpo : PatternOk p) (f : FillInBlank)
    (hprompt : ¬ p <:+: f.prompt.data)
    (hblanks : ∀ b ∈ f.blanks, b.expected_answers = none ∧
      ¬ p <:+: b.id.data ∧ ¬ p <:+: b.text_with_placeholder.data) :
    ¬ p <:+: fibChars f := by
  unfold fibChars
  refine objChars_clean hpo _ ?_
  intro x hx
  simp only [List.mem_cons, List.not_mem_nil, or_false] at hx
  rcases hx with rfl | rfl
  · exact keyValChars_clean hpo _ _ (hpo.keys "prompt" (by decide)) (strChars_clean hpo _ hprompt)
  · refine keyValChars_clean hpo _ _ (hpo.keys "blanks" (by decide)) ?_
    refine arrChars_clean hpo _ ?_
    intro y hy
    obtain ⟨b, hb, rfl⟩ := List.mem_map.mp hy
    obtain ⟨h1, h2, h3⟩ := hblanks b hb
    exact blankChars_clean hpo b h1 h2 h3

theorem mcOptionChars_clean {p : List Char} (hpo : PatternOk p) (o : McOption)
    (hid : ¬ p <:+: o.id.data) (htxt : ¬ p <:+: o.text.data) :
    ¬ p <:+: mcOptionChars o := by
  unfold mcOptionChars
  refine objChars_clean hpo _ ?_
  intro x hx
  simp only [List.mem_cons, List.not_mem_nil, or_false] at hx
  rcases hx with rfl | rfl
  · exact keyValChars_clean hpo _ _ (hpo.keys "id" (by decide)) (strChars_clean hpo _ hid)
  · exact keyValChars_clean hpo _ _ (hpo.keys "text" (by decide)) (strChars_clean hpo _ htxt)

theorem mcChars_clean {p : List Char} (hpo : PatternOk p) (m : MultipleChoice)
    (hred : m.correct_option_ids = none)
    (hprompt : ¬ p <:+: m.prompt.data)
    (hopts : ∀ o ∈ m.options, ¬ p <:+: o.id.data ∧ ¬ p <:+: o.text.data) :
    ¬ p <:+: mcChars m := by
  unfold mcChars
  rw [hred]
  refine objChars_clean hpo _ ?_
  intro x hx
  simp only [List.append_nil, List.mem_cons, List.not_mem_nil, or_false] at hx
  rcases hx with rfl | rfl | rfl
  · exact keyValChars_clean hpo _ _ (hpo.keys "prompt" (by decide)) (strChars_clean hpo _ hprompt)
  · refine keyValChars_clean hpo _ _ (hpo.keys "options" (by decide)) ?_
    refine arrChars_clean hpo _ ?_
    intro y hy
    obtain ⟨o, ho, rfl⟩ := List.mem_map.mp hy
    obtain ⟨h1, h2⟩ := hopts o ho
    exact mcOptionChars_clean hpo o h1 h2
  · exact keyValChars_clean hpo _ _ (hpo.keys "allow_multiple" (by decide)) (boolChars_clean hpo _)

theorem trChars_clean {p : List Char} (hpo : PatternOk p) (t : Translation)
    (htxt : ¬ p <:+: t.text.data) : ¬ p <:+: trChars t := by
  unfold trChars
  refine objChars_clean hpo _ ?_
  intro x hx
  simp only [List.mem_cons, List.not_mem_nil, or_false] at hx
  rcases hx with rfl
  exact keyValChars_clean hpo _ _ (hpo.keys "text" (by decide)) (strChars_clean hpo _ htxt)

theorem frChars_clean {p : List Char} (hpo : PatternOk p) (f : FreeResponse)
    (hl : ¬ p <:+: f.language.data) (hprompt : ¬ p <:+: f.prompt.data)
    (hr : ¬ p <:+: f.rubric.data) : ¬ p <:+: frChars f := by
  unfold frChars
  refine objChars_clean hpo _ ?_
  intro x hx
  simp only [List.mem_cons, List.not_mem_nil, or_false] at hx
  rcases hx with rfl | rfl | rfl
  · exact keyValChars_clean hpo _ _ (hpo.keys "language" (by decide)) (strChars_clean hpo _ hl)
  · exact keyValChars_clean hpo _ _ (hpo.keys "prompt" (by decide)) (strChars_clean hpo _ hprompt)
  · exact keyValChars_clean hpo _ _ (hpo.keys "rubric" (by decide)) (strChars_clean hpo _ hr)

theorem exerciseChars_clean {p : List Char} (hpo : PatternOk p) (e : Exercise)
    (hid : ∀ s ∈ e.exercise_id, ¬ p <:+: s.data)
    (hpt : ∀ s ∈ e.problem_type, ¬ p <:+: s.data)
    (htr : ∀ t ∈ e.translation, ¬ p <:+: t.text.data)
    (hfib : ∀ f ∈ e.fill_in_blank, (¬ p <:+: f.prompt.data) ∧
      ∀ b ∈ f.blanks, b.expected_answers = none ∧
        ¬ p <:+: b.id.data ∧ ¬ p <:+: b.text_with_placeholder.data)
    (hmc : ∀ m ∈ e.multiple_choice, m.correct_option_ids = none ∧
      (¬ p <:+: m.prompt.data) ∧ ∀ o ∈ m.options, ¬ p <:+: o.id.data ∧ ¬ p <:+: o.text.data)
    (hfr : ∀ f ∈ e.free_response, ¬ p <:+: f.language.data ∧
      ¬ p <:+: f.prompt.data ∧ ¬ p <:+: f.rubric.data) :
    ¬ p <:+: exerciseChars e := by
  unfold exerciseChars
  refine objChars_clean hpo _ ?_
  intro x hx
  simp only [List.mem_cons, List.not_mem_nil, or_false] at hx
  rcases hx with rfl | rfl | rfl | rfl | rfl | rfl | rfl
  · exact keyValChars_clean hpo _ _ (hpo.keys "enabled" (by decide)) (intChars_clean hpo _)
  · exact keyValChars_clean hpo _ _ (hpo.keys "exercise_id" (by decide))
      (optStrChars_clean hpo _ hid)
  · exact keyValChars_clean hpo _ _ (hpo.keys "problem_type" (by decide))
      (optStrChars_clean hpo _ hpt)
  · refine keyValChars_clean hpo _ _ (hpo.keys "translation" (by decide)) ?_
    cases htrc : e.translation with
    | none => exact nullChars_clean hpo
    | some t => exact trChars_clean hpo t (htr t htrc)
  · refine keyValChars_clean hpo _ _ (hpo.keys "fill_in_blank" (by decide)) ?_
    cases hfc : e.fill_in_blank with
    | none => exact nullChars_clean hpo
    | some f => exact fibChars_clean hpo f (hfib f hfc).1 (hfib f hfc).2
  · refine keyValChars_clean hpo _ _ (hpo.keys "multiple_choice" (by decide)) ?_
    cases hmcc : e.multiple_choice with
    | none => exact nullChars_clean hpo
    | some m => exact mcChars_clean hpo m (hmc m hmcc).1 (hmc m hmcc).2.1 (hmc m hmcc).2.2
  · refine keyValChars_clean hpo _ _ (hpo.keys "free_response" (by decide)) ?_
    cases hfrc : e.free_response with
    | none => exact nullChars_clean hpo
    | some f => exact frChars_clean hpo f (hfr f hfrc).1 (hfr f hfrc).2.1 (hfr f hfrc).2.2

/-- Freedom of a pattern from the retained (non-answer-key) text fields
of an exercise. -/
def ExerciseTextClean (p : List Char) (e : Exercise) : Prop :=
  (∀ s ∈ e.exercise_id, ¬ p <:+: s.data) ∧
    (∀ s ∈ e.problem_type, ¬ p <:+: s.data) ∧
    (∀ t ∈ e.translation, ¬ p <:+: t.text.data) ∧
    (∀ f ∈ e.fill_in_blank, (¬ p <:+: f.prompt.data) ∧
      ∀ b ∈ f.blanks, ¬ p <:+: b.id.data ∧ ¬ p <:+: b.text_with_placeholder.data) ∧
    (∀ m ∈ e.multiple_choice, (¬ p <:+: m.prompt.data) ∧
      ∀ o ∈ m.options, ¬ p <:+: o.id.data ∧ ¬ p <:+: o.text.data) ∧
    (∀ f ∈ e.free_response, ¬ p <:+: f.language.data ∧
      ¬ p <:+: f.prompt.data ∧ ¬ p <:+: f.rubric.data)

/-- Freedom of a pattern from the attempt's strings (and, for a
fill-in-blank attempt map, its keys). -/
def AttemptTextClean (p : List Char) : Option Attempt → Prop
  | none => True
  | some (.str s) => ¬ p <:+: s.data
  | some (.blanks entries) => ∀ kv ∈ entries, ¬ p <:+: kv.1.data ∧ ¬ p <:+: kv.2.data
  | some (.choices ids) => ∀ i ∈ ids, ¬ p <:+: i.data

instance (p : List Char) (e : Exercise) : Decidable (ExerciseTextClean p e) := by
  unfold ExerciseTextClean
  refine @instDecidableAnd _ _ ?_ (@instDecidableAnd _ _ ?_ (@instDecidableAnd _ _ ?_
    (@instDecidableAnd _ _ ?_ (@instDecidableAnd _ _ ?_ ?_)))) <;> infer_instance

instance (p : List Char) (att : Option Attempt) : Decidable (AttemptTextClean p att) :=
  match att with
  | none => isTrue trivial
  | some (.str s) => decidable_of_iff (¬ p <:+: s.data) Iff.rfl
  | some (.blanks entries) =>
    decidable_of_iff (∀ kv ∈ entries, ¬ p <:+: kv.1.data ∧ ¬ p <:+: kv.2.data) Iff.rfl
  | some (.choices ids) => decidable_of_iff (∀ i ∈ ids, ¬ p <:+: i.data) Iff.rfl

theorem attemptChars_clean {p : List Char} (hpo : PatternOk p) (att : Option Attempt)
    (h : AttemptTextClean p att) : ¬ p <:+: attemptChars att := by
  match att with
  | none => exact nullChars_clean hpo
  | some (.str s) => exact strChars_clean hpo s h
  | some (.blanks entries) =>
    refine objChars_clean hpo _ ?_
    intro x hx
    obtain ⟨kv, hkv, rfl⟩ := List.mem_map.mp hx
    exact keyValChars_clean hpo _ _ (h kv hkv).1 (strChars_clean hpo _ (h kv hkv).2)
  | some (.choices ids) => exact strArrChars_clean hpo ids h

/-- Modelled from the spec: the help-mode template of `prompts.json`
(absent from `src/`) embeds the redacted active-exercise JSON, the
attempt JSON, the help-context JSON and the user's literal text. -/
def helpUserMessageTemplate : List TemplatePart :=
  [.lit "The learner is working on this exercise (answer key redacted):\n",
    .var "activeContextJson",
    .lit "\nCurrent attempt:\n",
    .var "attemptJson",
    .lit "\nHelp context:\n",
    .var "helpContextJson",
    .lit "\nLearner message:\n",
    .var "userText"]

theorem helpUserContent_data (active : Option Exercise) (att : Option Attempt) (u : String) :
    (helpUserContent helpUserMessageTemplate active att u).data =
      "The learner is working on this exercise (answer key redacted):\n".data ++
        (optChars exerciseChars (redactActiveForModel active) ++
        ("\nCurrent attempt:\n".data ++ (attemptChars att ++
        ("\nHelp context:\n".data ++
        (objChars [keyValChars "problem" (optChars exerciseChars (redactActiveForModel active))] ++
        ("\nLearner message:\n".data ++ u.data)))))) := by
  have h0 : (helpUserContent helpUserMessageTemplate active att u).data =
      ((((((("The learner is working on this exercise (answer key redacted):\n".data ++
        optChars exerciseChars (redactActiveForModel active)) ++
        "\nCurrent attempt:\n".data) ++ attemptChars att) ++
        "\nHelp context:\n".data) ++
        objChars [keyValChars "problem" (optChars exerciseChars (redactActiveForModel active))]) ++
        "\nLearner message:\n".data) ++ u.data) := rfl
  rw [h0]
  simp [List.append_assoc]

/-- The redacted serialized help content contains no occurrence of a
word-only answer-key pattern, for a payload-consistent objective
exercise whose retained text fields, attempt, user text and template
literals are free of the pattern. -/
theorem helpContent_no_pattern {p : List Char} (hpo : PatternOk p)
    (active : Exercise) (att : Option Attempt) (u : String)
    (he : active.enabled = 1)
    (hwt : ExerciseInvariant active)
    (hty : active.problem_type = some "fill_in_blank" ∨
      active.problem_type = some "multiple_choice")
    (htext : ExerciseTextClean p active)
    (hatt : AttemptTextClean p att)
    (hut : ¬ p <:+: u.data)
    (hlits : ∀ s, TemplatePart.lit s ∈ helpUserMessageTemplate → ¬ p <:+: s.data) :
    ¬ p <:+: (helpUserContent helpUserMessageTemplate (some active) att u).data := by
  obtain ⟨hid, hpt, htr, hfib, hmc, hfr⟩ := htext
  have hexr : ¬ p <:+: exerciseChars (redactExercise active) := by
    rcases hty with hty | hty
    · rcases hwt.2 he with ⟨h1, -⟩ | ⟨h1, h2, h3, h4, h5⟩ | ⟨h1, -⟩ | ⟨h1, -⟩
      · exact absurd (Option.some.inj (h1.symm.trans hty)) (by decide)
      · have hfibeq : (redactExercise active).fill_in_blank =
            active.fill_in_blank.map (fun fib =>
              { fib with blanks := fib.blanks.map fun b => { b with expected_answers := none } }) := by
          show (if active.problem_type = some "fill_in_blank" then _ else active.fill_in_blank) = _
          rw [if_pos hty]
        have hmceq : (redactExercise active).multiple_choice = none := by
          show (if active.problem_type = some "multiple_choice" then _
            else active.multiple_choice) = none
          rw [if_neg fun hcon =>
            absurd (Option.some.inj (hty.symm.trans hcon)) (by decide)]
          exact h4
        refine exerciseChars_clean hpo _ hid hpt htr ?_ ?_ hfr
        · intro f' hf'
          rw [hfibeq] at hf'
          obtain ⟨f, hf, rfl⟩ := Option.map_eq_some'.mp hf'
          refine ⟨(hfib f hf).1, ?_⟩
          intro b' hb'
          obtain ⟨b, hb, rfl⟩ := List.mem_map.mp hb'
          exact ⟨rfl, (hfib f hf).2 b hb⟩
        · intro m hm
          rw [hmceq] at hm
          cases hm
      · exact absurd (Option.some.inj (h1.symm.trans hty)) (by decide)
      · exact absurd (Option.some.inj (h1.symm.trans hty)) (by decide)
    · rcases hwt.2 he with ⟨h1, -⟩ | ⟨h1, -⟩ | ⟨h1, h2, h3, h4, h5⟩ | ⟨h1, -⟩
      · exact absurd (Option.some.inj (h1.symm.trans hty)) (by decide)
      · exact absurd (Option.some.inj (h1.symm.trans hty)) (by decide)
      · have hfibeq : (redactExercise active).fill_in_blank = none := by
          show (if active.problem_type = some "fill_in_blank" then _
            else active.fill_in_blank) = none
          rw [if_neg fun hcon =>
            absurd (Option.some.inj (hty.symm.trans hcon)) (by decide)]
          exact h4
        have hmceq : (redactExercise active).multiple_choice =
            active.multiple_choice.map (fun mc => { mc with correct_option_ids := none }) := by
          show (if active.problem_type = some "multiple_choice" then _
            else active.multiple_choice) = _
          rw [if_pos hty]
        refine exerciseChars_clean hpo _ hid hpt htr ?_ ?_ hfr
        · intro f' hf'
          rw [hfibeq] at hf'
          cases hf'
        · intro m' hm'
          rw [hmceq] at hm'
          obtain ⟨m, hm, rfl⟩ := Option.map_eq_some'.mp hm'
          exact ⟨rfl, (hmc m hm).1, (hmc m hm).2⟩
      · exact absurd (Option.some.inj (h1.symm.trans hty)) (by decide)
  have hjson1 : ¬ p <:+: optChars exerciseChars (redactActiveForModel (some active)) := hexr
  have hjson2 : ¬ p <:+: attemptChars att := attemptChars_clean hpo att hatt
  have hjson3 : ¬ p <:+: objChars [keyValChars "problem"
      (optChars exerciseChars (redactActiveForModel (some active)))] := by
    refine objChars_clean hpo _ ?_
    intro x hx
    rcases List.mem_singleton.mp hx with rfl
    exact keyValChars_clean hpo _ _ (hpo.keys "problem" (by decide)) hjson1
  have hl1 := hlits "The learner is working on this exercise (answer key redacted):\n" (by decide)
  have hl2 := hlits "\nCurrent attempt:\n" (by decide)
  have hl3 := hlits "\nHelp context:\n" (by decide)
  have hl4 := hlits "\nLearner message:\n" (by decide)
  rw [helpUserContent_data]
  have x8 : ¬ p <:+: ("\nLearner message:\n".data ++ u.data) := by
    refine not_infix_append_lastSep p _ _ hpo.word ?_ hl4 hut
    intro d hd
    have hd' : some '\n' = some d := hd
    injection hd' with hd'
    rw [← hd']
    decide
  have x7 : ¬ p <:+: (objChars [keyValChars "problem"
      (optChars exerciseChars (redactActiveForModel (some active)))] ++
      ("\nLearner message:\n".data ++ u.data)) := by
    refine not_infix_append_headSep p _ _ hpo.word ?_ hjson3 x8
    intro d hd
    have hd' : some '\n' = some d := hd
    injection hd' with hd'
    rw [← hd']
    decide
  have x6 : ¬ p <:+: ("\nHelp context:\n".data ++
      (objChars [keyValChars "problem"
        (optChars exerciseChars (redactActiveForModel (some active)))] ++
        ("\nLearner message:\n".data ++ u.data))) := by
    refine not_infix_append_lastSep p _ _ hpo.word ?_ hl3 x7
    intro d hd
    have hd' : some '\n' = some d := hd
    injection hd' with hd'
    rw [← hd']
    decide
  have x5 : ¬ p <:+: (attemptChars att ++ ("\nHelp context:\n".data ++
      (objChars [keyValChars "problem"
        (optChars exerciseChars (redactActiveForModel (some active)))] ++
        ("\nLearner message:\n".data ++ u.data)))) := by
    refine not_infix_append_headSep p _ _ hpo.word ?_ hjson2 x6
    intro d hd
    have hd' : some '\n' = some d := hd
    injection hd' with hd'
    rw [← hd']
    decide
  have x4 : ¬ p <:+: ("\nCurrent attempt:\n".data ++ (attemptChars att ++
      ("\nHelp context:\n".data ++
      (objChars [keyValChars "problem"
        (optChars exerciseChars (redactActiveForModel (some active)))] ++
        ("\nLearner message:\n".data ++ u.data))))) := by
    refine not_infix_append_lastSep p _ _ hpo.word ?_ hl2 x5
    intro d hd
    have hd' : some '\n' = some d := hd
    injection hd' with hd'
    rw [← hd']
    decide
  have x3 : ¬ p <:+: (optChars exerciseChars (redactActiveForModel (some active)) ++
      ("\nCurrent attempt:\n".data ++ (attemptChars att ++
      ("\nHelp context:\n".data ++
      (objChars [keyValChars "problem"
        (optChars exerciseChars (redactActiveForModel (some active)))] ++
        ("\nLearner message:\n".data ++ u.data)))))) := by
    refine not_infix_append_headSep p _ _ hpo.word ?_ hjson1 x4
    intro d hd
    have hd' : some '\n' = some d := hd
    injection hd' with hd'
    rw [← hd']
    decide
  refine not_infix_append_lastSep p _ _ hpo.word ?_ hl1 x3
  intro d hd
  have hd' : some '\n' = some d := hd
  injection hd' with hd'
  rw [← hd']
  decide

/-- The `expected_answers` answer-key substring, as a char list. -/
def expectedAnswersPattern : List Char := "expected_answers".data

/-- The `correct_option_ids` answer-key substring, as a char list. -/
def correctOptionIdsPattern : List Char := "correct_option_ids".data

theorem expectedAnswersPattern_ok : PatternOk expectedAnswersPattern :=
  ⟨by decide, by decide, by decide⟩

theorem correctOptionIdsPattern_ok : PatternOk correctOptionIdsPattern :=
  ⟨by decide, by decide, by decide⟩

theorem helpTemplate_lits_clean_ea :
    ∀ s, TemplatePart.lit s ∈ helpUserMessageTemplate →
      ¬ expectedAnswersPattern <:+: s.data := by
  intro s hs
  simp [helpUserMessageTemplate] at hs
  rcases hs with rfl | rfl | rfl | rfl <;> decide

theorem helpTemplate_lits_clean_ci :
    ∀ s, TemplatePart.lit s ∈ helpUserMessageTemplate →
      ¬ correctOptionIdsPattern <:+: s.data := by
  intro s hs
  simp [helpUserMessageTemplate] at hs
  rcases hs with rfl | rfl | rfl | rfl <;> decide

/-- C4 (amended): for an active fill_in_blank or multiple_choice
exercise whose populated payload matches its problem_type and whose
retained text fields, attempt and user text do not themselves contain
the answer-key substrings, the serialized help-mode user content
contains neither `expected_answers` nor `correct_option_ids`. -/
theorem c4_help_context_redaction
    (active : Exercise) (att : Option Attempt) (u : String)
    (he : active.enabled = 1)
    (hwt : ExerciseInvariant active)
    (hty : active.problem_type = some "fill_in_blank" ∨
      active.problem_type = some "multiple_choice")
    (h1 : ExerciseTextClean expectedAnswersPattern active)
    (h2 : ExerciseTextClean correctOptionIdsPattern active)
    (h3 : AttemptTextClean expectedAnswersPattern att)
    (h4 : AttemptTextClean correctOptionIdsPattern att)
    (h5 : ¬ expectedAnswersPattern <:+: u.data)
    (h6 : ¬ correctOptionIdsPattern <:+: u.data) :
    ¬ expectedAnswersPattern <:+:
        (helpUserContent helpUserMessageTemplate (some active) att u).data ∧
      ¬ correctOptionIdsPattern <:+:
        (helpUserContent helpUserMessageTemplate (some active) att u).data :=
  ⟨helpContent_no_pattern expectedAnswersPattern_ok active att u he hwt hty h1 h3 h5
      helpTemplate_lits_clean_ea,
    helpContent_no_pattern correctOptionIdsPattern_ok active att u he hwt hty h2 h4 h6
      helpTemplate_lits_clean_ci⟩

def c4Ex : Exercise :=
  ⟨1, some "fx", some "fill_in_blank", none,
    some ⟨"Fill the blank", [⟨"b1", "____ amigo", some ["hola"]⟩]⟩, none, none⟩

/-- Witness for C4 (amended) at a concrete fill_in_blank exercise with
a present answer key: the rendered help content leaks neither
substring. -/
theorem c4_help_context_redaction_witness :
    ¬ expectedAnswersPattern <:+:
        (helpUserContent helpUserMessageTemplate (some c4Ex)
          (some (.blanks [("b1", "Hola")])) "How do I say hello?").data ∧
      ¬ correctOptionIdsPattern <:+:
        (helpUserContent helpUserMessageTemplate (some c4Ex)
          (some (.blanks [("b1", "Hola")])) "How do I say hello?").data :=
  c4_help_context_redaction c4Ex (some (.blanks [("b1", "Hola")])) "How do I say hello?"
    rfl (by decide) (Or.inl rfl) (by decide) (by decide) (by decide) (by decide)
    (by decide) (by decide)

def leakyExercise : Exercise :=
  ⟨1, some "bad", some "multiple_choice", none,
    some ⟨"hidden", [⟨"b1", "x ____", some ["soy"]⟩]⟩,
    some ⟨"Pick", [⟨"a", "A"⟩], false, some ["a"]⟩, none⟩

set_option maxRecDepth 100000 in
/-- Counterexample to C4 as stated: a multiple_choice active exercise
carrying a stray fill_in_blank payload keeps its `expected_answers`
key through redaction (the blank-stripping branch only fires when
problem_type is fill_in_blank), so the serialized help content contains
the substring. -/
theorem c4_stray_payload_leaks_expected_answers :
    expectedAnswersPattern <:+:
      (helpUserContent helpUserMessageTemplate (some leakyExercise) none "help").data := by
  decide
